import Mathlib

/-!
# Verification of the gqlgen federation plugin and IR builder

Shallow embedding of three Go source files:

* `src/unnamed/part_000` — the federation plugin revision with resolver
  names and the whitespace key check; embedded in namespace `Fed`.
* `src/plugin/federation/federation.go` — the earlier federation plugin
  revision; embedded in namespace `FedOld`.
* `src/codegen/data.go` — the IR builder; embedded in namespace `Codegen`.

Modelling conventions:
* Go maps are embedded as association lists.  A `range` over a Go map
  iterates in an order the runtime does not fix, so a function that
  iterates a map takes the entry list (one possible iteration order) as
  an explicit input.
* Abnormal control flow is captured by `Outcome`: a Go function either
  returns a value, returns an error value, panics, or exits the process.
* The external type binder (`config.Binder`) is a parameter
  `bind : String → String` mapping a rendered GraphQL type to the
  rendered Go type (`TypeReference.GO.String()`).
* The external schema printer (`gqlfmt.PrintSchema`) and file system are
  likewise parameters.
-/

namespace Gqlgen

/-- How a Go computation finishes: normal value, returned error value
(`error`), runtime panic, or direct process exit (`os.Exit`). -/
inductive Outcome (α : Type) where
  | ok : α → Outcome α
  | err : String → Outcome α
  | panicked : String → Outcome α
  | exited : Nat → Outcome α
  deriving Repr, DecidableEq

/-! ## GraphQL AST (the parts of `vektah/gqlparser/ast` the code uses) -/

inductive DefinitionKind where
  | object
  | inputObject
  | interfaceKind
  | union
  | scalar
  | enum
  deriving Repr, DecidableEq

/-- A directive argument; `raw` is `Value.Raw`. -/
structure Argument where
  name : String
  raw : String
  deriving Repr, DecidableEq

/-- A directive application on a definition. -/
structure DirectiveApp where
  name : String
  arguments : List Argument
  deriving Repr, DecidableEq

/-- An argument declaration of a field; `type` is the rendered GraphQL
type text (`Type.String()`). -/
structure ArgumentDef where
  name : String
  type : String
  deriving Repr, DecidableEq

/-- `ast.FieldDefinition`; `type` is the rendered GraphQL type text. -/
structure FieldDefinition where
  name : String
  type : String
  arguments : List ArgumentDef := []
  deriving Repr, DecidableEq

/-- `ast.Definition`. `types` is the union member list. -/
structure Definition where
  name : String
  kind : DefinitionKind
  description : String := ""
  directives : List DirectiveApp := []
  fields : List FieldDefinition := []
  types : List String := []
  deriving Repr, DecidableEq

/-- `DirectiveList.ForName`: first directive with the given name. -/
def directivesForName (ds : List DirectiveApp) (n : String) : Option DirectiveApp :=
  ds.find? (fun d => d.name == n)

/-- `FieldList.ForName`: first field with the given name (nil if absent). -/
def fieldsForName (fs : List FieldDefinition) (n : String) : Option FieldDefinition :=
  fs.find? (fun f => f.name == n)

/-! ## Go standard library fragments -/

/-- `strings.Contains(s, " ")`. -/
def containsSpace (s : String) : Bool :=
  s.data.any (fun c => c == ' ')

/-- `isSeparator` from Go `strings.Title` (the ASCII branch: a rune is a
separator unless it is a letter, a digit or an underscore; the names the
plugin applies it to are ASCII). -/
def goIsSeparator (c : Char) : Bool :=
  !(c.isAlphanum || c == '_')

def goTitleAux : Bool → List Char → List Char
  | _, [] => []
  | prevSep, c :: cs => (if prevSep then c.toUpper else c) :: goTitleAux (goIsSeparator c) cs

/-- Go `strings.Title`: upper-case every letter that follows a separator
(the start of the string counts as one). -/
def goStringsTitle (s : String) : String :=
  ⟨goTitleAux true s.data⟩

/-- Lexicographic `<=` on strings as character lists (Go's `<` on
strings is the corresponding strict byte-wise order). -/
def charListLe : List Char → List Char → Bool
  | [], _ => true
  | _ :: _, [] => false
  | a :: as, b :: bs =>
    if a.toNat < b.toNat then true
    else if b.toNat < a.toNat then false
    else charListLe as bs

/-- Lexicographic `<` on strings as character lists. -/
def charListLt : List Char → List Char → Bool
  | [], [] => false
  | [], _ :: _ => true
  | _ :: _, [] => false
  | a :: as, b :: bs =>
    if a.toNat < b.toNat then true
    else if b.toNat < a.toNat then false
    else charListLt as bs

/-! ## Federation plugin, `src/unnamed/part_000` -/

namespace Fed

/-- `Entity` from the federation plugin.  `fieldTypeGo` holds its Go zero
value `""` until `GenerateCode` fills it. -/
structure Entity where
  name : String
  fieldName : String
  fieldTypeGo : String := ""
  fieldTypeGQL : String
  resolverName : String
  defn : Definition
  deriving Repr, DecidableEq

/-- One iteration of the `range schema.Types` loop in `setEntities`.
`dir.Arguments[0]` on an empty slice and `field.Type` on a nil field are
runtime panics; a whitespace-containing key is an explicit panic. -/
def setEntitiesStep (acc : List Entity) (schemaType : Definition) : Outcome (List Entity) :=
  if schemaType.kind = DefinitionKind.object then
    match directivesForName schemaType.directives "key" with
    | none => Outcome.ok acc
    | some dir =>
      match dir.arguments with
      | [] => Outcome.panicked "runtime error: index out of range"
      | arg0 :: _ =>
        if containsSpace arg0.raw then
          Outcome.panicked "only single fields are currently supported in @key declaration"
        else
          match fieldsForName schemaType.fields arg0.raw with
          | none => Outcome.panicked "runtime error: invalid memory address or nil pointer dereference"
          | some field =>
            Outcome.ok (acc ++ [{ name := schemaType.name
                                  fieldName := arg0.raw
                                  fieldTypeGQL := field.type
                                  resolverName :=
                                    "find" ++ schemaType.name ++ "By" ++ goStringsTitle arg0.raw
                                  defn := schemaType }])
  else Outcome.ok acc

def setEntitiesFrom (acc : List Entity) : List Definition → Outcome (List Entity)
  | [] => Outcome.ok acc
  | t :: ts =>
    match setEntitiesStep acc t with
    | Outcome.ok acc2 => setEntitiesFrom acc2 ts
    | Outcome.err e => Outcome.err e
    | Outcome.panicked m => Outcome.panicked m
    | Outcome.exited n => Outcome.exited n

/-- `setEntities` scans the loaded schema's type map (given here as one
iteration order of its entries) for `@key`-bearing object types. -/
def setEntities (types : List Definition) : Outcome (List Entity) :=
  setEntitiesFrom [] types

/-- An object type whose `@key` directive's `fields` argument contains
whitespace (the multi-field detection used by `setEntities`). -/
def offendingKeyType (t : Definition) : Bool :=
  if t.kind = DefinitionKind.object then
    match directivesForName t.directives "key" with
    | none => false
    | some dir =>
      match dir.arguments with
      | [] => false
      | arg0 :: _ => containsSpace arg0.raw
  else false

end Fed

/-- Go map assignment `m[k] = v` on an association list: replace the
value under `k` if present, else append the new entry. -/
def upsert {β : Type} : List (String × β) → String → β → List (String × β)
  | [], k, v => [(k, v)]
  | (k', v') :: rest, k, v =>
    if k' == k then (k', v) :: rest else (k', v') :: upsert rest k v

/-- Go map lookup `m[k]` on an association list (first entry wins; a Go
map has at most one entry per key). -/
def alookup {β : Type} (m : List (String × β)) (k : String) : Option β :=
  (m.find? (fun p => p.1 == k)).map Prod.snd

/-! ## IR builder, `src/codegen/data.go`

`ReferencedTypes`, `ComplexityRoots`, the directive table and the
mutation/subscription roots are not touched by any claim and are left out
of the embedded `Data`. `buildObject`/`buildField` resolve each field's
type through the external binder `bind`; the binder is total here (an
unresolvable type is an external `TypeBuildError`, outside every claim's
scenario). -/

namespace Codegen

/-- A resolved IR field; `goType` is `TypeReference.GO.String()`. -/
structure IRField where
  name : String
  goType : String
  deriving Repr, DecidableEq

/-- `codegen.Object` (the parts the claims touch).  `implements` mirrors
`Object.Implements` (`[]*ast.Definition`). -/
structure IRObject where
  definitionName : String
  fields : List IRField
  implements : List Definition := []
  deriving Repr, DecidableEq

/-- `buildField` for one schema field definition. -/
def buildField (bind : String → String) (fd : FieldDefinition) : IRField :=
  { name := fd.name, goType := bind fd.type }

/-- `buildObject`: one IR field per schema field, in declaration order. -/
def buildObject (bind : String → String) (t : Definition) : IRObject :=
  { definitionName := t.name, fields := t.fields.map (buildField bind) }

/-- Modelled from the spec: `buildInterface` (not under `src/`) builds "an
`Interface` value recording the member/possible-type set as declared by
the schema" (§4.1 step 2). -/
structure Interface where
  name : String
  possibleTypeNames : List String
  deriving Repr, DecidableEq

def buildInterface (t : Definition) : Interface :=
  { name := t.name, possibleTypeNames := t.types }

/-- `codegen.Entity` (`data.go`). -/
structure CEntity where
  name : String
  fieldName : String
  fieldType : String
  defn : Definition
  deriving Repr, DecidableEq

/-- Modelled from the spec: `Objects.ByName` (not under `src/`) performs
"name lookup against the just-built Object list": first object with the
given name, nil when absent. -/
def byName (objs : List IRObject) (n : String) : Option IRObject :=
  objs.find? (fun o => o.definitionName == n)

/-- Accumulator of the `range b.Schema.Types` loop in `BuildData`. -/
structure LoopState where
  objects : List IRObject := []
  inputs : List IRObject := []
  interfaces : List (String × Interface) := []
  entities : List CEntity := []
  deriving Repr, DecidableEq

/-- One iteration of the `BuildData` type loop (`data.go` lines 99–129).
`dir.Arguments[0]` and `obj.Fields[0]` on empty slices are runtime
panics.  Note the entity's `FieldType` is read from `obj.Fields[0]` — the
object's first field — not from the field named by the key. -/
def buildLoopStep (bind : String → String) (st : LoopState) (t : Definition) : Outcome LoopState :=
  match t.kind with
  | DefinitionKind.object =>
    let obj := buildObject bind t
    let st2 : LoopState := { st with objects := st.objects ++ [obj] }
    (match directivesForName t.directives "key" with
     | none => Outcome.ok st2
     | some dir =>
       match dir.arguments with
       | [] => Outcome.panicked "runtime error: index out of range"
       | arg0 :: _ =>
         match obj.fields with
         | [] => Outcome.panicked "runtime error: index out of range"
         | f0 :: _ =>
           Outcome.ok { st2 with entities := st2.entities ++
             [{ name := obj.definitionName, fieldName := arg0.raw,
                fieldType := f0.goType, defn := t }] })
  | DefinitionKind.inputObject =>
    Outcome.ok { st with inputs := st.inputs ++ [buildObject bind t] }
  | DefinitionKind.union =>
    Outcome.ok { st with interfaces := upsert st.interfaces t.name (buildInterface t) }
  | DefinitionKind.interfaceKind =>
    Outcome.ok { st with interfaces := upsert st.interfaces t.name (buildInterface t) }
  | _ => Outcome.ok st

def buildLoopFrom (bind : String → String) (st : LoopState) :
    List Definition → Outcome LoopState
  | [] => Outcome.ok st
  | t :: ts =>
    match buildLoopStep bind st t with
    | Outcome.ok st2 => buildLoopFrom bind st2 ts
    | Outcome.err e => Outcome.err e
    | Outcome.panicked m => Outcome.panicked m
    | Outcome.exited n => Outcome.exited n

def buildLoop (bind : String → String) (types : List Definition) : Outcome LoopState :=
  buildLoopFrom bind {} types

/-- The schema graph handed to `BuildData`: the type map (as one
iteration order of its entries — a type's map key is its name), the root
type names, and the parser's possible-type map. -/
structure SchemaIn where
  types : List Definition
  queryName : Option String := none
  possibleTypes : List (String × List Definition) := []
  deriving Repr, DecidableEq

/-- `append` to an `Object`'s field list through its pointer. -/
def appendObjFields (fs : List IRField) (o : IRObject) : IRObject :=
  { o with fields := o.fields ++ fs }

/-- Mutation through the pointer `Objects.ByName` returns: update the
first object with the given name. -/
def updateFirstByName (n : String) (f : IRObject → IRObject) :
    List IRObject → List IRObject
  | [] => []
  | o :: rest =>
    if o.definitionName == n then f o :: rest else o :: updateFirstByName n f rest

/-- `ast.Definition` lookup in the schema's type map. -/
def defsFind (ds : List Definition) (n : String) : Option Definition :=
  ds.find? (fun d => d.name == n)

/-- Schema type-map assignment `s.Schema.Types[d.Name] = d`. -/
def defsUpsert : List Definition → Definition → List Definition
  | [], d => [d]
  | d' :: rest, d => if d'.name == d.name then d :: rest else d' :: defsUpsert rest d

/-- Mutation of the map entry `Schema.Query` points into. -/
def defsUpdate (n : String) (f : Definition → Definition) :
    List Definition → List Definition
  | [] => []
  | d :: rest => if d.name == n then f d :: rest else d :: defsUpdate n f rest

/-- The two introspection fields `injectIntrospectionRoots` builds. -/
def introspectionFields (bind : String → String) : List IRField :=
  [buildField bind { name := "__type", type := "__Type",
                     arguments := [{ name := "name", type := "String!" }] },
   buildField bind { name := "__schema", type := "__Schema" }]

/-- `injectIntrospectionRoots` (`data.go` lines 257–288): looks up the
Query object and appends `__type`/`__schema` to the IR object's field
list only — the schema definition's field list is not updated here. -/
def injectIntrospectionRoots (bind : String → String) (qn : String)
    (objs : List IRObject) : Outcome (List IRObject) :=
  match byName objs qn with
  | none => Outcome.err "root query type must be defined"
  | some _ =>
    Outcome.ok (updateFirstByName qn (appendObjFields (introspectionFields bind)) objs)

/-- The `_Entity` union definition `injectEntityUnion` synthesizes. -/
def entityUnionDef (entities : List CEntity) : Definition :=
  { name := "_Entity", kind := DefinitionKind.union, types := entities.map CEntity.name }

/-- `injectEntityUnion` (`data.go` lines 229–255): register the possible
types, store the `Interface`, add the union to the schema type map, and
append the union to `Implements` of every object whose name is an entity
name. -/
def injectEntityUnion (entities : List CEntity) (objs : List IRObject)
    (interfaces : List (String × Interface)) (schemaTypes : List Definition)
    (possibleTypes : List (String × List Definition)) :
    List IRObject × List (String × Interface) × List Definition ×
      List (String × List Definition) :=
  let union := entityUnionDef entities
  let possibleTypes2 := upsert possibleTypes "_Entity" (entities.map CEntity.defn)
  let interfaces2 := upsert interfaces "_Entity" (buildInterface union)
  let schemaTypes2 := defsUpsert schemaTypes union
  let objs2 := entities.foldl
    (fun os e => os.map (fun o =>
      if o.definitionName = e.name then { o with implements := o.implements ++ [union] }
      else o)) objs
  (objs2, interfaces2, schemaTypes2, possibleTypes2)

/-- The `_entities` field definition (`[_Any!]!` / `[_Entity]!` are the
rendered forms of the built `ast.Type` values). -/
def entitiesFieldDef : FieldDefinition :=
  { name := "_entities", type := "[_Entity]!",
    arguments := [{ name := "representations", type := "[_Any!]!" }] }

/-- `injectEntitiesQuery` (`data.go` lines 209–227): append `_entities`
to the Query IR object and to the schema Query definition. -/
def injectEntitiesQuery (bind : String → String) (qn : String)
    (objs : List IRObject) (schemaTypes : List Definition) :
    List IRObject × List Definition :=
  (updateFirstByName qn (appendObjFields [buildField bind entitiesFieldDef]) objs,
   defsUpdate qn (fun d => { d with fields := d.fields ++ [entitiesFieldDef] }) schemaTypes)

/-- The `_Service` object type `injectSDL` synthesizes. -/
def serviceTypeDef : Definition :=
  { name := "_Service", kind := DefinitionKind.object,
    fields := [{ name := "sdl", type := "String!" }] }

def serviceFieldDef : FieldDefinition := { name := "_service", type := "_Service!" }

/-- `injectSDL` (`data.go` lines 178–207): add the `_Service` object to
the IR and the schema, then append `_service` to the Query IR object and
to the schema Query definition. -/
def injectSDL (bind : String → String) (qn : String)
    (objs : List IRObject) (schemaTypes : List Definition) :
    List IRObject × List Definition :=
  let objs2 := objs ++ [buildObject bind serviceTypeDef]
  let schemaTypes2 := defsUpsert schemaTypes serviceTypeDef
  (updateFirstByName qn (appendObjFields [buildField bind serviceFieldDef]) objs2,
   defsUpdate qn (fun d => { d with fields := d.fields ++ [serviceFieldDef] }) schemaTypes2)

/-- The `sort.Slice` calls (`data.go` lines 159–165) order Objects and
Inputs by definition name (insertion sort; the names are map keys, hence
distinct, so any comparison sort yields this result). -/
def objLe (a b : IRObject) : Bool :=
  charListLe a.definitionName.data b.definitionName.data

def sortObjects (objs : List IRObject) : List IRObject :=
  List.insertionSort (fun a b => objLe a b = true) objs

/-- The raw `_entities` signature stripped from the printed schema
(`data.go` line 172). -/
def entitiesSig : String := "_entities(representations: [_Any!]!): [_Entity]!"

def replaceOnce (pat new : List Char) : List Char → List Char
  | [] => []
  | c :: rest =>
    if pat.isPrefixOf (c :: rest) then new ++ (c :: rest).drop pat.length
    else c :: replaceOnce pat new rest

/-- `strings.Replace(str, entitiesSig, "", 1)`: remove the first
occurrence of the signature. -/
def publishedSDL (printed : String) : String :=
  ⟨replaceOnce entitiesSig.data [] printed.data⟩

def hasSubstr (pat : List Char) : List Char → Bool
  | [] => pat.isEmpty
  | c :: rest => pat.isPrefixOf (c :: rest) || hasSubstr pat rest

/-- Substring test (`strings.Contains`). -/
def strHasSubstr (s pat : String) : Bool :=
  hasSubstr pat.data s.data

/-- The unified IR (`codegen.Data`, the parts the claims touch).
`queryRootName` stands for the `QueryRoot` pointer: the Query object is
`byName objects queryRootName`. -/
structure IRData where
  objects : List IRObject
  inputs : List IRObject
  interfaces : List (String × Interface)
  entities : List CEntity
  queryRootName : String
  schemaTypes : List Definition
  schemaPossibleTypes : List (String × List Definition)
  sdl : String
  deriving Repr, DecidableEq

/-- `BuildData` (`data.go` lines 51–176), from the loaded schema on:
type loop, Query root resolution, introspection injection, the three
federation injections when `federated` (`cfg.Federated`), the two sorts,
and the printed-schema computation through the external printer
`print` (`gqlfmt.PrintSchema`). -/
def buildData (federated : Bool) (bind : String → String)
    (print : List Definition → String) (sIn : SchemaIn) : Outcome IRData :=
  match buildLoop bind sIn.types with
  | Outcome.err e => Outcome.err e
  | Outcome.panicked m => Outcome.panicked m
  | Outcome.exited n => Outcome.exited n
  | Outcome.ok st =>
    match sIn.queryName with
    | none => Outcome.err "query entry point missing"
    | some qn =>
      match injectIntrospectionRoots bind qn st.objects with
      | Outcome.err e => Outcome.err e
      | Outcome.panicked m => Outcome.panicked m
      | Outcome.exited n => Outcome.exited n
      | Outcome.ok objs1 =>
        let (objsF, interfacesF, schemaTypesF, possibleTypesF) :=
          if federated then
            let (objsU, interfacesU, schemaTypesU, possibleTypesU) :=
              injectEntityUnion st.entities objs1 st.interfaces sIn.types sIn.possibleTypes
            let (objsE, schemaTypesE) := injectEntitiesQuery bind qn objsU schemaTypesU
            let (objsS, schemaTypesS) := injectSDL bind qn objsE schemaTypesE
            (objsS, interfacesU, schemaTypesS, possibleTypesU)
          else (objs1, st.interfaces, sIn.types, sIn.possibleTypes)
        Outcome.ok
          { objects := sortObjects objsF
            inputs := sortObjects st.inputs
            interfaces := interfacesF
            entities := st.entities
            queryRootName := qn
            schemaTypes := schemaTypesF
            schemaPossibleTypes := possibleTypesF
            sdl := publishedSDL (print schemaTypesF) }

/-! Per-definition summaries of the loop, used to state theorems. -/

/-- A loop iteration finishes without panicking on this definition. -/
def stepOK (t : Definition) : Bool :=
  if t.kind = DefinitionKind.object then
    match directivesForName t.directives "key" with
    | none => true
    | some dir => !dir.arguments.isEmpty && !t.fields.isEmpty
  else true

/-- The object (if any) the loop appends for this definition. -/
def objOf (bind : String → String) (t : Definition) : Option IRObject :=
  if t.kind = DefinitionKind.object then some (buildObject bind t) else none

/-- The input object (if any) the loop appends for this definition. -/
def inputOf (bind : String → String) (t : Definition) : Option IRObject :=
  if t.kind = DefinitionKind.inputObject then some (buildObject bind t) else none

/-- The entity (if any) the loop appends for this definition. -/
def entOf (bind : String → String) (t : Definition) : Option CEntity :=
  if t.kind = DefinitionKind.object then
    match directivesForName t.directives "key" with
    | none => none
    | some dir =>
      match dir.arguments, t.fields with
      | arg0 :: _, f0 :: _ =>
        some { name := t.name, fieldName := arg0.raw, fieldType := bind f0.type, defn := t }
      | _, _ => none
  else none

/-- The interface-map effect of one loop iteration. -/
def interStep (m : List (String × Interface)) (t : Definition) :
    List (String × Interface) :=
  if t.kind = DefinitionKind.union ∨ t.kind = DefinitionKind.interfaceKind then
    upsert m t.name (buildInterface t)
  else m

/-- Result extractors used by theorem statements. -/
def entitiesOf (r : Outcome IRData) : Option (List CEntity) :=
  match r with
  | Outcome.ok d => some d.entities
  | _ => none

def irQueryFieldNames (r : Outcome IRData) : Option (List String) :=
  match r with
  | Outcome.ok d => (byName d.objects d.queryRootName).map (fun o => o.fields.map IRField.name)
  | _ => none

def schemaQueryFieldNames (r : Outcome IRData) : Option (List String) :=
  match r with
  | Outcome.ok d =>
    (defsFind d.schemaTypes d.queryRootName).map (fun t => t.fields.map FieldDefinition.name)
  | _ => none

def sdlOf (r : Outcome IRData) : Option String :=
  match r with
  | Outcome.ok d => some d.sdl
  | _ => none

def isOk {α : Type} (r : Outcome α) : Bool :=
  match r with
  | Outcome.ok _ => true
  | _ => false

def objFieldGoType (r : Outcome IRData) (objName fieldName : String) : Option String :=
  match r with
  | Outcome.ok d =>
    match byName d.objects objName with
    | some o => (o.fields.find? (fun f => f.name == fieldName)).map IRField.goType
    | none => none
  | _ => none

def schemaTypeOf (r : Outcome IRData) (n : String) : Option Definition :=
  match r with
  | Outcome.ok d => defsFind d.schemaTypes n
  | _ => none

def possibleTypesOf (r : Outcome IRData) (n : String) : Option (List Definition) :=
  match r with
  | Outcome.ok d => alookup d.schemaPossibleTypes n
  | _ => none

/-- The IR object list a successful federated build sorts: the
introspection-extended objects after the three federation injections
(spelled out from `buildData`'s federated branch). -/
def federatedObjects (bind : String → String) (qn : String) (ents : List CEntity)
    (objs1 : List IRObject) : List IRObject :=
  updateFirstByName qn (appendObjFields [buildField bind serviceFieldDef])
    ((updateFirstByName qn (appendObjFields [buildField bind entitiesFieldDef])
      (ents.foldl
        (fun os e => os.map (fun o =>
          if o.definitionName = e.name then
            { o with implements := o.implements ++ [entityUnionDef ents] }
          else o)) objs1)) ++
      [buildObject bind serviceTypeDef])

/-- Names of the object types carrying a `@key` directive, in iteration
order — the owning types of the entities the loop collects. -/
def keyedTypeNames (ts : List Definition) : List String :=
  (ts.filter (fun t => t.kind == DefinitionKind.object &&
    (directivesForName t.directives "key").isSome)).map Definition.name

/-- The schema type map after the three federation injections. -/
def federatedSchemaTypes (qn : String) (ents : List CEntity)
    (ts : List Definition) : List Definition :=
  defsUpdate qn (fun d => { d with fields := d.fields ++ [serviceFieldDef] })
    (defsUpsert
      (defsUpdate qn (fun d => { d with fields := d.fields ++ [entitiesFieldDef] })
        (defsUpsert ts (entityUnionDef ents)))
      serviceTypeDef)

end Codegen

/-! ## Federation plugin, continued: `MutateConfig`, `GenerateCode`,
`getSDL`, and the dispatch template's semantics -/

namespace Fed

/-- `ast.Source`. -/
structure Source where
  name : String
  input : String
  builtIn : Bool
  deriving Repr, DecidableEq

/-- `getSource`: the fixed `federation.graphql` declarations source. -/
def getSource (builtin : Bool) : Source :=
  { name := "federation.graphql"
    input := "# Declarations as required by the federation spec \n# See: https://www.apollographql.com/docs/apollo-server/federation/federation-spec/\n\nscalar _Any\nscalar _FieldSet\n\ndirective @external on FIELD_DEFINITION\ndirective @requires(fields: _FieldSet!) on FIELD_DEFINITION\ndirective @provides(fields: _FieldSet!) on FIELD_DEFINITION\ndirective @key(fields: _FieldSet!) on OBJECT | INTERFACE\ndirective @extends on OBJECT\n"
    builtIn := builtin }

/-- `config.TypeMapField`, reduced to its `Resolver` flag. -/
structure TypeMapEntry where
  model : List String := []
  fields : List (String × Bool) := []
  deriving Repr, DecidableEq

/-- `config.TypeMap` / `cfg.Models` as an association list. -/
abbrev Models := List (String × TypeMapEntry)

def modelsExists (models : Models) (k : String) : Bool :=
  (alookup models k).isSome

def serviceEntry : TypeMapEntry :=
  { model := ["github.com/99designs/gqlgen/graphql/introspection.Service"] }

def anyEntry : TypeMapEntry :=
  { model := ["github.com/99designs/gqlgen/graphql.Map"] }

/-- The `entityFields` map: one `{Resolver: true}` field per entity
resolver name. -/
def entityFields (entities : List Entity) : List (String × Bool) :=
  entities.foldl (fun m e => upsert m e.resolverName true) []

def entityEntry (entities : List Entity) : TypeMapEntry :=
  { fields := entityFields entities }

/-- The `builtins` map literal of `MutateConfig` (`part_000` lines
40–50). -/
def federationBuiltins (entities : List Entity) : Models :=
  [("_Service", serviceEntry), ("_Any", anyEntry), ("Entity", entityEntry entities)]

/-- The `range builtins` loop of `MutateConfig`: error as soon as a
reserved name already exists, otherwise insert the entry. -/
def mutateConfigLoop : List (String × TypeMapEntry) → Models → Except String Models
  | [], models => Except.ok models
  | (tn, entry) :: rest, models =>
    if modelsExists models tn then
      Except.error (tn ++ " already exists which must be reserved when Federation is enabled")
    else mutateConfigLoop rest (upsert models tn entry)

/-- `MutateConfig` (`part_000` lines 35–59).  `order` is one possible
iteration order of the `builtins` Go map (a permutation of
`federationBuiltins`). -/
def mutateConfig (order : List (String × TypeMapEntry)) (models : Models) :
    Except String Models :=
  mutateConfigLoop order models

/-- The `FieldTypeGo` binding loop of `GenerateCode` (`part_000` lines
159–166): look up the IR object named like the entity (a missing object
is a nil pointer, so ranging over its fields panics) and overwrite
`fieldTypeGo` on every field whose name equals the key field name. -/
def bindFieldTypeGo (objs : List Codegen.IRObject) (e : Entity) : Outcome Entity :=
  match Codegen.byName objs e.name with
  | none => Outcome.panicked "runtime error: invalid memory address or nil pointer dereference"
  | some obj =>
    Outcome.ok (obj.fields.foldl
      (fun acc f =>
        if f.name == acc.fieldName then { acc with fieldTypeGo := f.goType } else acc)
      e)

/-- One step of the file-reading loop in `getSDL` (`part_000` lines
205–215): a failed read prints to stderr and calls `os.Exit(1)`.
`filepath.ToSlash` is the identity on slash paths and is not modelled. -/
def getSDLRead (readFile : String → Except String String) :
    List String → List Source → Outcome (List Source)
  | [], acc => Outcome.ok acc
  | fn :: fns, acc =>
    match readFile fn with
    | Except.error _ => Outcome.exited 1
    | Except.ok contents =>
      getSDLRead readFile fns (acc ++ [{ name := fn, input := contents, builtIn := false }])

/-- `getSDL` (`part_000` lines 203–223).  `loadSchema` is the external
parser (`gqlparser.LoadSchema`), whose failure is returned as an error
value; `formatSchema` is the external formatter. -/
def getSDL {Schema : Type} (readFile : String → Except String String)
    (loadSchema : List Source → Except String Schema)
    (formatSchema : Schema → String)
    (schemaFilename : List String) : Outcome String :=
  match getSDLRead readFile schemaFilename [getSource true] with
  | Outcome.err e => Outcome.err e
  | Outcome.panicked m => Outcome.panicked m
  | Outcome.exited n => Outcome.exited n
  | Outcome.ok sources =>
    match loadSchema sources with
    | Except.error e => Outcome.err e
    | Except.ok schema => Outcome.ok (formatSchema schema)

/-! ### Semantics of the generated `__resolve_entities` resolver
(the `tmpl` template, `part_000` lines 240–265, expanded over the
plugin's entity list) -/

/-- A value stored in a representation map: its dynamic Go type name and
an opaque payload.  A type assertion `v.(T)` succeeds iff `ty = T`;
`__typename` values carry `ty = "string"` with the type name in `val`. -/
structure GoValue where
  ty : String
  val : String
  deriving Repr, DecidableEq

/-- Go map lookup in a representation; an absent key is a nil interface
value, whose type assertion fails. -/
def repLookup (rep : List (String × GoValue)) (k : String) : Option GoValue :=
  (rep.find? (fun p => p.1 == k)).map Prod.snd

/-- One iteration of the `range representations` loop: assert
`__typename` to a string, switch over the entity cases in list order,
assert the key field's value to the entity's bound Go type, and delegate
to the per-type resolver (`resolve`, keyed by resolver name). -/
def resolveEntityRep (entities : List Entity)
    (resolve : String → GoValue → Except String GoValue)
    (rep : List (String × GoValue)) : Except String GoValue :=
  match repLookup rep "__typename" with
  | none => Except.error "__typename must be an existing string"
  | some tv =>
    if tv.ty = "string" then
      match entities.find? (fun e => e.name == tv.val) with
      | none => Except.error ("unknown type: " ++ tv.val)
      | some e =>
        match repLookup rep e.fieldName with
        | none => Except.error "opsies"
        | some idv =>
          if idv.ty = e.fieldTypeGo then resolve e.resolverName idv
          else Except.error "opsies"
    else Except.error "__typename must be an existing string"

/-- The `__resolve_entities` loop, accumulating the result list. -/
def resolveEntities (entities : List Entity)
    (resolve : String → GoValue → Except String GoValue) :
    List (List (String × GoValue)) → List GoValue → Except String (List GoValue)
  | [], list => Except.ok list
  | rep :: reps, list =>
    match resolveEntityRep entities resolve rep with
    | Except.error e => Except.error e
    | Except.ok v => resolveEntities entities resolve reps (list ++ [v])

/-- A representation none of the dispatch guards accepts: `__typename`
missing or not a string, an unknown type name, or a key-field value whose
dynamic type is not the entity's bound type. -/
def badRep (entities : List Entity) (rep : List (String × GoValue)) : Bool :=
  match repLookup rep "__typename" with
  | none => true
  | some tv =>
    if tv.ty = "string" then
      match entities.find? (fun e => e.name == tv.val) with
      | none => true
      | some e =>
        match repLookup rep e.fieldName with
        | none => true
        | some idv => !(idv.ty == e.fieldTypeGo)
    else true

end Fed

namespace Codegen

/-- No occurrence of `pat` starts strictly inside `pre` in the string
`pre ++ pat ++ post`. -/
def noEarlierOverlap (pat pre post : List Char) : Bool :=
  pre.tails.all (fun t => t.isEmpty || !(pat.isPrefixOf (t ++ pat ++ post)))

end Codegen

/-! ## Concrete fixtures used by witnesses and counterexamples -/

def productSingle : Definition :=
  { name := "Product"
    kind := DefinitionKind.object
    directives := [{ name := "key", arguments := [{ name := "fields", raw := "upc" }] }]
    fields := [{ name := "upc", type := "String!" }, { name := "name", type := "String" }] }

def productMulti : Definition :=
  { name := "Product"
    kind := DefinitionKind.object
    directives := [{ name := "key", arguments := [{ name := "fields", raw := "upc sku" }] }]
    fields := [{ name := "upc", type := "String!" }, { name := "sku", type := "String!" }] }

/-- The entity `setEntities` records for `productSingle`. -/
def productEntity : Fed.Entity :=
  { name := "Product", fieldName := "upc", fieldTypeGQL := "String!",
    resolverName := "findProductByUpc", defn := productSingle }

/-- A concrete stand-in for the external type binder. -/
def mockBind (t : String) : String := "go_" ++ t

/-- A concrete stand-in for the external schema printer. -/
def mockPrint (_ : List Definition) : String := ""

def queryDef : Definition :=
  { name := "Query", kind := DefinitionKind.object,
    fields := [{ name := "hello", type := "String" }] }

/-- A schema with only a Query root. -/
def sInQueryOnly : Codegen.SchemaIn :=
  { types := [queryDef], queryName := some "Query" }

/-- A `Product` type whose `@key` field `upc` is its second field. -/
def productRev : Definition :=
  { name := "Product", kind := DefinitionKind.object
    directives := [{ name := "key", arguments := [{ name := "fields", raw := "upc" }] }]
    fields := [{ name := "reviews", type := "Int" }, { name := "upc", type := "ID" }] }

def sInProductRev : Codegen.SchemaIn :=
  { types := [queryDef, productRev], queryName := some "Query" }

def typeA : Definition :=
  { name := "AType", kind := DefinitionKind.object
    directives := [{ name := "key", arguments := [{ name := "fields", raw := "id" }] }]
    fields := [{ name := "id", type := "ID" }] }

def typeB : Definition :=
  { name := "BType", kind := DefinitionKind.object
    directives := [{ name := "key", arguments := [{ name := "fields", raw := "id" }] }]
    fields := [{ name := "id", type := "ID" }] }

/-- The same schema type map under two of its possible iteration orders. -/
def sInAB1 : Codegen.SchemaIn :=
  { types := [queryDef, typeA, typeB], queryName := some "Query" }

def sInAB2 : Codegen.SchemaIn :=
  { types := [queryDef, typeB, typeA], queryName := some "Query" }

/-- A printed schema text containing the `_entities` signature twice (as
the external printer produces when a user type itself declares a field
with the synthesized signature). -/
def dupPrint (_ : List Definition) : String :=
  Codegen.entitiesSig ++ "\n" ++ Codegen.entitiesSig

/-- The `Product` entity after `GenerateCode` bound its Go key type. -/
def boundProductEntity : Fed.Entity :=
  { productEntity with fieldTypeGo := "string" }

def goodRep : List (String × Fed.GoValue) :=
  [("__typename", { ty := "string", val := "Product" }),
   ("upc", { ty := "string", val := "123" })]

def widgetRep : List (String × Fed.GoValue) :=
  [("__typename", { ty := "string", val := "Widget" })]

def mockResolve (_ : String) (v : Fed.GoValue) : Except String Fed.GoValue :=
  Except.ok v




/-! ## Lemmas about `Fed.setEntities` -/

namespace Fed

theorem setEntitiesStep_ok_or_panicked (acc : List Entity) (t : Definition) :
    (∃ acc2, setEntitiesStep acc t = Outcome.ok acc2) ∨
      (∃ m, setEntitiesStep acc t = Outcome.panicked m) := by
  unfold setEntitiesStep
  repeat' split
  all_goals first
    | exact Or.inl ⟨_, rfl⟩
    | exact Or.inr ⟨_, rfl⟩

theorem setEntitiesStep_offending (acc : List Entity) (t : Definition)
    (h : offendingKeyType t = true) :
    setEntitiesStep acc t =
      Outcome.panicked "only single fields are currently supported in @key declaration" := by
  unfold offendingKeyType at h
  unfold setEntitiesStep
  split at h
  · rename_i hkind
    rw [if_pos hkind]
    split at h
    · exact absurd h (by simp)
    · split at h
      · exact absurd h (by simp)
      · rw [if_pos h]
  · exact absurd h (by simp)

theorem setEntitiesFrom_offending (types : List Definition) :
    ∀ acc : List Entity, (∃ t ∈ types, offendingKeyType t = true) →
      ∃ m, setEntitiesFrom acc types = Outcome.panicked m := by
  induction types with
  | nil =>
    intro acc h
    rcases h with ⟨t, ht, _⟩
    cases ht
  | cons t ts ih =>
    intro acc h
    rcases h with ⟨t', ht', hoff⟩
    rcases List.mem_cons.mp ht' with h1 | h2
    · subst h1
      refine ⟨"only single fields are currently supported in @key declaration", ?_⟩
      simp only [setEntitiesFrom]
      rw [setEntitiesStep_offending acc t' hoff]
    · rcases setEntitiesStep_ok_or_panicked acc t with ⟨acc2, hok⟩ | ⟨m, hp⟩
      · rcases ih acc2 ⟨t', h2, hoff⟩ with ⟨m, hm⟩
        refine ⟨m, ?_⟩
        simp only [setEntitiesFrom]
        rw [hok]
        exact hm
      · refine ⟨m, ?_⟩
        simp only [setEntitiesFrom]
        rw [hp]

theorem setEntitiesStep_resolver (acc : List Entity) (t : Definition) (acc2 : List Entity)
    (hok : setEntitiesStep acc t = Outcome.ok acc2) :
    ∀ e ∈ acc2, e ∈ acc ∨
      e.resolverName = "find" ++ e.name ++ "By" ++ goStringsTitle e.fieldName := by
  unfold setEntitiesStep at hok
  repeat' split at hok
  all_goals cases hok
  all_goals intro e he
  · exact Or.inl he
  · rcases List.mem_append.mp he with hl | hr
    · exact Or.inl hl
    · rcases List.mem_singleton.mp hr with rfl
      exact Or.inr rfl
  · exact Or.inl he

theorem setEntitiesFrom_resolver (types : List Definition) :
    ∀ acc res : List Entity,
      (∀ e ∈ acc, e.resolverName = "find" ++ e.name ++ "By" ++ goStringsTitle e.fieldName) →
      setEntitiesFrom acc types = Outcome.ok res →
      ∀ e ∈ res, e.resolverName = "find" ++ e.name ++ "By" ++ goStringsTitle e.fieldName := by
  induction types with
  | nil =>
    intro acc res hacc h
    simp only [setEntitiesFrom] at h
    injection h with h
    subst h
    exact hacc
  | cons t ts ih =>
    intro acc res hacc h
    simp only [setEntitiesFrom] at h
    cases hs : setEntitiesStep acc t with
    | ok acc2 =>
      rw [hs] at h
      refine ih acc2 res ?_ h
      intro e he
      rcases setEntitiesStep_resolver acc t acc2 hs e he with hmem | hres
      · exact hacc e hmem
      · exact hres
    | err m => rw [hs] at h; cases h
    | panicked m => rw [hs] at h; cases h
    | exited n => rw [hs] at h; cases h

end Fed

/-! ## Claim C1 -/

/-- C1 (counterexample): on a schema whose `Product` type declares
`@key(fields: "upc sku")`, entity discovery terminates by panic — it does
not return an `UnsupportedKeyError` (or any other) error value, and the
panic message does not name the offending type. -/
theorem fed_multifield_key_panic_counterexample :
    Fed.setEntities [productMulti] =
      Outcome.panicked "only single fields are currently supported in @key declaration" := by
  decide

/-- C1 (amended): if any object type's `@key` fields argument contains
whitespace, the federation plugin's `setEntities` aborts the build by
panicking with a fixed message; it never returns an error value. -/
theorem fed_whitespace_key_panics (types : List Definition)
    (h : ∃ t ∈ types, Fed.offendingKeyType t = true) :
    (∃ m, Fed.setEntities types = Outcome.panicked m) ∧
      ∀ s, Fed.setEntities types ≠ Outcome.err s := by
  have hp := Fed.setEntitiesFrom_offending types [] h
  refine ⟨hp, ?_⟩
  intro s hs
  rcases hp with ⟨m, hm⟩
  simp only [Fed.setEntities] at hs
  rw [hm] at hs
  exact Outcome.noConfusion hs

/-- C1 (witness for the amended theorem). -/
theorem fed_whitespace_key_panics_witness :
    (∃ m, Fed.setEntities [productMulti] = Outcome.panicked m) ∧
      ∀ s, Fed.setEntities [productMulti] ≠ Outcome.err s :=
  fed_whitespace_key_panics [productMulti] ⟨productMulti, by simp, by decide⟩

/-! ## Claim C8 -/

/-- C8: every entity recorded by the federation plugin's `setEntities` has
resolver identifier `"find" ++ typeName ++ "By" ++ titleCase keyField`;
in particular type `Product` with key field `upc` yields
`findProductByUpc`. -/
theorem fed_resolver_identifier :
    (∀ (types : List Definition) (res : List Fed.Entity),
        Fed.setEntities types = Outcome.ok res →
        ∀ e ∈ res, e.resolverName = "find" ++ e.name ++ "By" ++ goStringsTitle e.fieldName) ∧
      Fed.setEntities [productSingle] = Outcome.ok [productEntity] ∧
      productEntity.resolverName = "findProductByUpc" := by
  refine ⟨?_, by decide, rfl⟩
  intro types res h
  refine Fed.setEntitiesFrom_resolver types [] res ?_ h
  intro e he
  cases he

/-- C8 (witness): the general part of `fed_resolver_identifier` applied to
the concrete `Product`/`upc` schema. -/
theorem fed_resolver_identifier_witness :
    productEntity.resolverName =
      "find" ++ productEntity.name ++ "By" ++ goStringsTitle productEntity.fieldName :=
  fed_resolver_identifier.1 [productSingle] [productEntity] (by decide) productEntity (by simp)

/-! ## Claim C4 -/

namespace Fed

theorem getSDLRead_exits (readFile : String → Except String String) :
    ∀ fns : List String, (∃ fn ∈ fns, ∃ e, readFile fn = Except.error e) →
      ∀ acc, getSDLRead readFile fns acc = Outcome.exited 1 := by
  intro fns
  induction fns with
  | nil =>
    intro h acc
    rcases h with ⟨fn, hfn, _⟩
    cases hfn
  | cons fn fns ih =>
    intro h acc
    rcases h with ⟨fn', hfn', e, he⟩
    rcases List.mem_cons.mp hfn' with h1 | h2
    · subst h1
      simp only [getSDLRead]
      rw [he]
    · cases hr : readFile fn with
      | error e2 =>
        simp only [getSDLRead]
        rw [hr]
      | ok contents =>
        simp only [getSDLRead]
        rw [hr]
        exact ih ⟨fn', h2, e, he⟩ _

end Fed

/-- C4 (counterexample): with a file system on which `schema.graphql`
fails to read, the federation plugin's `getSDL` terminates the process
(`os.Exit(1)`) instead of returning an error value to its caller. -/
theorem fed_getSDL_exit_counterexample :
    Fed.getSDL (fun _ => Except.error "open schema.graphql: no such file or directory")
      (fun _ => (Except.ok "" : Except String String)) (fun s => s)
      ["schema.graphql"] = Outcome.exited 1 := rfl

/-- C4 (amended): whenever reading any configured schema file fails,
`getSDL` prints to stderr and exits the process with status 1; an error
value reaches the caller only for parse failures, not read failures. -/
theorem fed_getSDL_exits_on_read_failure {Schema : Type}
    (readFile : String → Except String String)
    (loadSchema : List Fed.Source → Except String Schema)
    (formatSchema : Schema → String) (fns : List String)
    (h : ∃ fn ∈ fns, ∃ e, readFile fn = Except.error e) :
    Fed.getSDL readFile loadSchema formatSchema fns = Outcome.exited 1 := by
  unfold Fed.getSDL
  rw [Fed.getSDLRead_exits readFile fns h]

/-- C4 (witness for the amended theorem): the second of two schema files
fails to read. -/
theorem fed_getSDL_exits_on_read_failure_witness :
    Fed.getSDL
      (fun fn => if fn = "b.graphql" then Except.error "permission denied"
                 else Except.ok "type Query")
      (fun _ => (Except.ok "" : Except String String)) (fun s => s)
      ["a.graphql", "b.graphql"] = Outcome.exited 1 :=
  fed_getSDL_exits_on_read_failure _ _ _ _
    ⟨"b.graphql", by simp, "permission denied", by simp⟩

/-! ## Claim C7 -/

namespace Codegen

theorem replaceOnce_splice (p : Char) (ps new post : List Char) :
    ∀ pre : List Char, noEarlierOverlap (p :: ps) pre post = true →
      replaceOnce (p :: ps) new (pre ++ (p :: ps) ++ post) = pre ++ new ++ post := by
  intro pre
  induction pre with
  | nil =>
    intro _
    have hpre : (p :: ps).isPrefixOf (p :: (ps ++ post)) = true :=
      List.isPrefixOf_iff_prefix.mpr ⟨post, by simp⟩
    show replaceOnce (p :: ps) new (p :: (ps ++ post)) = [] ++ new ++ post
    simp only [replaceOnce, hpre, if_true]
    have hdrop : (p :: (ps ++ post)).drop (p :: ps).length = post :=
      List.drop_left (p :: ps) post
    rw [hdrop]
    simp
  | cons c pre' ih =>
    intro h
    have htails :
        ((c :: pre').isEmpty
            || !((p :: ps).isPrefixOf ((c :: pre') ++ (p :: ps) ++ post))) = true ∧
          pre'.tails.all
            (fun t => t.isEmpty || !((p :: ps).isPrefixOf (t ++ (p :: ps) ++ post))) = true := by
      have h' := h
      simp only [noEarlierOverlap, List.tails_cons, List.all_cons, Bool.and_eq_true] at h'
      exact h'
    rcases htails with ⟨hhead, hrest⟩
    simp only [List.cons_append] at hhead
    have hnp : (p :: ps).isPrefixOf (c :: (pre' ++ (p :: ps) ++ post)) = false := by
      cases hx : (p :: ps).isPrefixOf (c :: (pre' ++ (p :: ps) ++ post)) with
      | false => rfl
      | true => rw [hx] at hhead; simp at hhead
    show replaceOnce (p :: ps) new (c :: (pre' ++ (p :: ps) ++ post)) =
      (c :: pre') ++ new ++ post
    simp only [replaceOnce, hnp, Bool.false_eq_true, if_false]
    have hih := ih hrest
    simp only [List.cons_append]
    rw [hih]

end Codegen

/-- C7 (counterexample): when the externally printed schema text contains
the raw `_entities(representations: [_Any!]!): [_Entity]!` signature
twice (as happens when a user type itself declares a field with that
signature), the published SDL produced by the build still contains the
signature — only the first occurrence is stripped. -/
theorem sdl_signature_retained_counterexample :
    (Codegen.sdlOf (Codegen.buildData true mockBind dupPrint sInQueryOnly)).map
        (fun s => Codegen.strHasSubstr s Codegen.entitiesSig) = some true := by decide

/-- C7 (amended): the build removes exactly the first occurrence of the
raw `_entities` signature from the printed schema text; the published SDL
is signature-free whenever the printed text contains the signature only
once (no occurrence starting earlier and none left after removal). -/
theorem sdl_strips_first_signature (pre post : List Char)
    (h1 : Codegen.noEarlierOverlap Codegen.entitiesSig.data pre post = true)
    (h2 : Codegen.hasSubstr Codegen.entitiesSig.data (pre ++ post) = false) :
    Codegen.strHasSubstr
        (Codegen.publishedSDL ⟨pre ++ Codegen.entitiesSig.data ++ post⟩)
        Codegen.entitiesSig = false := by
  cases hp : Codegen.entitiesSig.data with
  | nil => exact absurd hp (by decide)
  | cons p ps =>
    rw [hp] at h1 h2
    show Codegen.hasSubstr Codegen.entitiesSig.data
      (Codegen.replaceOnce Codegen.entitiesSig.data [] (pre ++ (p :: ps) ++ post)) = false
    rw [hp]
    rw [Codegen.replaceOnce_splice p ps [] post pre h1]
    simpa using h2

/-- C7 (witness for the amended theorem). -/
theorem sdl_strips_first_signature_witness :
    Codegen.strHasSubstr
        (Codegen.publishedSDL
          ⟨"type Query Z ".data ++ Codegen.entitiesSig.data ++ " W".data⟩)
        Codegen.entitiesSig = false :=
  sdl_strips_first_signature "type Query Z ".data " W".data (by decide) (by decide)

/-! ## Claim C9 -/

namespace Fed

theorem resolveEntityRep_bad (entities : List Entity)
    (resolve : String → GoValue → Except String GoValue)
    (rep : List (String × GoValue)) (h : badRep entities rep = true) :
    ∃ s, resolveEntityRep entities resolve rep = Except.error s := by
  unfold badRep at h
  unfold resolveEntityRep
  cases hty : repLookup rep "__typename" with
  | none => simp only [hty]; exact ⟨_, rfl⟩
  | some tv =>
    simp only [hty] at h ⊢
    by_cases hstr : tv.ty = "string"
    · simp only [if_pos hstr] at h ⊢
      cases hfind : entities.find? (fun e => e.name == tv.val) with
      | none => simp only [hfind]; exact ⟨_, rfl⟩
      | some e =>
        simp only [hfind] at h ⊢
        cases hfld : repLookup rep e.fieldName with
        | none => simp only [hfld]; exact ⟨_, rfl⟩
        | some idv =>
          simp only [hfld] at h ⊢
          have hne : ¬(idv.ty = e.fieldTypeGo) := by simpa using h
          rw [if_neg hne]
          exact ⟨_, rfl⟩
    · rw [if_neg hstr]
      exact ⟨_, rfl⟩

theorem resolveEntities_bad (entities : List Entity)
    (resolve : String → GoValue → Except String GoValue) :
    ∀ (reps : List (List (String × GoValue))) (list : List GoValue),
      (∃ rep ∈ reps, badRep entities rep = true) →
      ∃ s, resolveEntities entities resolve reps list = Except.error s := by
  intro reps
  induction reps with
  | nil =>
    intro list h
    rcases h with ⟨r, hr, _⟩
    cases hr
  | cons rep reps ih =>
    intro list h
    rcases h with ⟨r, hr, hbad⟩
    rcases List.mem_cons.mp hr with h1 | h2
    · subst h1
      rcases resolveEntityRep_bad entities resolve r hbad with ⟨s, hs⟩
      refine ⟨s, ?_⟩
      simp only [resolveEntities]
      rw [hs]
    · cases hstep : resolveEntityRep entities resolve rep with
      | error s => exact ⟨s, by simp only [resolveEntities]; rw [hstep]⟩
      | ok v =>
        rcases ih (list ++ [v]) ⟨r, h2, hbad⟩ with ⟨s, hs⟩
        exact ⟨s, by simp only [resolveEntities]; rw [hstep]; exact hs⟩

theorem resolveEntityRep_delegates (entities : List Entity)
    (resolve : String → GoValue → Except String GoValue)
    (rep : List (String × GoValue)) (tv : GoValue) (e : Entity) (idv : GoValue)
    (h1 : repLookup rep "__typename" = some tv) (h2 : tv.ty = "string")
    (h3 : entities.find? (fun x => x.name == tv.val) = some e)
    (h4 : repLookup rep e.fieldName = some idv) (h5 : idv.ty = e.fieldTypeGo) :
    resolveEntityRep entities resolve rep = resolve e.resolverName idv := by
  unfold resolveEntityRep
  simp only [h1, if_pos h2, h3, h4, if_pos h5]

end Fed

/-- C9: the generated entity-dispatch resolver (i) returns an explicit
error value whenever any representation has a missing or non-string
`__typename`, a `__typename` matching no entity, or a key-field value
whose dynamic type is not the entity's bound Go type; (ii) answers an
unknown `__typename` with the explicit `unknown type:` error; and (iii)
delegates a well-formed representation to the matched entity's per-type
resolver. -/
theorem fed_entity_dispatch :
    (∀ (entities : List Fed.Entity)
        (resolve : String → Fed.GoValue → Except String Fed.GoValue)
        (reps : List (List (String × Fed.GoValue))),
        (∃ rep ∈ reps, Fed.badRep entities rep = true) →
        ∃ s, Fed.resolveEntities entities resolve reps [] = Except.error s) ∧
    (∀ (entities : List Fed.Entity)
        (resolve : String → Fed.GoValue → Except String Fed.GoValue)
        (rep : List (String × Fed.GoValue)) (tv : Fed.GoValue),
        Fed.repLookup rep "__typename" = some tv → tv.ty = "string" →
        entities.find? (fun x => x.name == tv.val) = none →
        Fed.resolveEntityRep entities resolve rep =
          Except.error ("unknown type: " ++ tv.val)) ∧
    (∀ (entities : List Fed.Entity)
        (resolve : String → Fed.GoValue → Except String Fed.GoValue)
        (rep : List (String × Fed.GoValue)) (tv : Fed.GoValue) (e : Fed.Entity)
        (idv : Fed.GoValue),
        Fed.repLookup rep "__typename" = some tv → tv.ty = "string" →
        entities.find? (fun x => x.name == tv.val) = some e →
        Fed.repLookup rep e.fieldName = some idv → idv.ty = e.fieldTypeGo →
        Fed.resolveEntities entities resolve [rep] [] =
          (resolve e.resolverName idv).map (fun v => [v])) := by
  refine ⟨fun entities resolve reps h => Fed.resolveEntities_bad entities resolve reps [] h,
    ?_, ?_⟩
  · intro entities resolve rep tv h1 h2 h3
    unfold Fed.resolveEntityRep
    simp only [h1, if_pos h2, h3]
  · intro entities resolve rep tv e idv h1 h2 h3 h4 h5
    simp only [Fed.resolveEntities,
      Fed.resolveEntityRep_delegates entities resolve rep tv e idv h1 h2 h3 h4 h5]
    cases resolve e.resolverName idv with
    | error s => rfl
    | ok v => simp [Fed.resolveEntities, Except.map]

/-- C9 (witness): a `Widget` representation errors, an unknown type name
gets the explicit message, and the good `Product` representation routes
through the `findProductByUpc` resolver. -/
theorem fed_entity_dispatch_witness :
    (∃ s, Fed.resolveEntities [boundProductEntity] mockResolve [widgetRep] [] =
        Except.error s) ∧
    Fed.resolveEntityRep [boundProductEntity] mockResolve widgetRep =
      Except.error ("unknown type: " ++ "Widget") ∧
    Fed.resolveEntities [boundProductEntity] mockResolve [goodRep] [] =
      (mockResolve boundProductEntity.resolverName { ty := "string", val := "123" }).map
        (fun v => [v]) :=
  ⟨fed_entity_dispatch.1 [boundProductEntity] mockResolve [widgetRep]
      ⟨widgetRep, by simp, by decide⟩,
    fed_entity_dispatch.2.1 [boundProductEntity] mockResolve widgetRep
      { ty := "string", val := "Widget" } (by decide) rfl (by decide),
    fed_entity_dispatch.2.2 [boundProductEntity] mockResolve goodRep
      { ty := "string", val := "Product" } boundProductEntity
      { ty := "string", val := "123" } (by decide) rfl (by decide) (by decide) rfl⟩

/-! ## Claim C10 -/

theorem alookup_cons {β : Type} (k2 : String) (v2 : β) (rest : List (String × β))
    (k' : String) :
    alookup ((k2, v2) :: rest) k' = if k' = k2 then some v2 else alookup rest k' := by
  by_cases h : k' = k2
  · simp only [alookup]
    rw [List.find?_cons_of_pos _ (by simpa using h.symm)]
    simp [h]
  · simp only [alookup]
    rw [List.find?_cons_of_neg _ (by simpa using fun hh => h hh.symm)]
    simp [h]

theorem alookup_upsert {β : Type} (m : List (String × β)) (k : String) (v : β)
    (k' : String) :
    alookup (upsert m k v) k' = if k' = k then some v else alookup m k' := by
  induction m with
  | nil =>
    show alookup [(k, v)] k' =
      if k' = k then some v else alookup ([] : List (String × β)) k'
    rw [alookup_cons]
  | cons p rest ih =>
    obtain ⟨k2, v2⟩ := p
    by_cases h2 : k2 = k
    · subst h2
      simp only [upsert, beq_self_eq_true, if_true]
      rw [alookup_cons, alookup_cons]
      by_cases h : k' = k2
      · rw [if_pos h, if_pos h]
      · rw [if_neg h, if_neg h, if_neg h]
    · have h2' : (k2 == k) = false := by simpa using h2
      simp only [upsert, h2', Bool.false_eq_true, if_false]
      rw [alookup_cons, alookup_cons]
      by_cases h : k' = k2
      · have hk : ¬k' = k := fun hh => h2 (h.symm.trans hh)
        rw [if_pos h, if_neg hk, if_pos h]
      · rw [if_neg h, if_neg h]
        exact ih

theorem modelsExists_upsert (m : Fed.Models) (k : String) (v : Fed.TypeMapEntry)
    (k' : String) :
    Fed.modelsExists (upsert m k v) k' =
      if k' = k then true else Fed.modelsExists m k' := by
  unfold Fed.modelsExists
  rw [alookup_upsert]
  by_cases h : k' = k <;> simp [h]

theorem mutateConfigLoop_error_iff :
    ∀ (order : List (String × Fed.TypeMapEntry)) (models : Fed.Models),
      (order.map Prod.fst).Nodup →
      ((∃ s, Fed.mutateConfigLoop order models = Except.error s) ↔
        ∃ p ∈ order, Fed.modelsExists models p.1 = true) := by
  intro order
  induction order with
  | nil => intro models _; simp [Fed.mutateConfigLoop]
  | cons p rest ih =>
    obtain ⟨tn, entry⟩ := p
    intro models hnodup
    by_cases hex : Fed.modelsExists models tn = true
    · constructor
      · intro _
        exact ⟨(tn, entry), List.mem_cons_self _ _, hex⟩
      · intro _
        refine ⟨tn ++ " already exists which must be reserved when Federation is enabled", ?_⟩
        simp [Fed.mutateConfigLoop, hex]
    · have hex' : Fed.modelsExists models tn = false := by
        simpa using hex
      have hstep : Fed.mutateConfigLoop ((tn, entry) :: rest) models =
          Fed.mutateConfigLoop rest (upsert models tn entry) := by
        simp [Fed.mutateConfigLoop, hex']
      have htn : tn ∉ rest.map Prod.fst := by
        have := hnodup
        simp only [List.map_cons, List.nodup_cons] at this
        exact this.1
      rw [hstep, ih (upsert models tn entry) (by
        have := hnodup
        simp only [List.map_cons, List.nodup_cons] at this
        exact this.2)]
      constructor
      · rintro ⟨q, hq, hqe⟩
        have hne : q.1 ≠ tn := by
          intro heq
          exact htn (heq ▸ List.mem_map_of_mem Prod.fst hq)
        rw [modelsExists_upsert, if_neg hne] at hqe
        exact ⟨q, List.mem_cons_of_mem _ hq, hqe⟩
      · rintro ⟨q, hq, hqe⟩
        rcases List.mem_cons.mp hq with h1 | h2
        · subst h1
          exact absurd hqe (by simpa using hex)
        · have hne : q.1 ≠ tn := by
            intro heq
            exact htn (heq ▸ List.mem_map_of_mem Prod.fst h2)
          refine ⟨q, h2, ?_⟩
          rw [modelsExists_upsert, if_neg hne]
          exact hqe

theorem mutateConfigLoop_ok :
    ∀ (order : List (String × Fed.TypeMapEntry)) (models models' : Fed.Models),
      (order.map Prod.fst).Nodup →
      Fed.mutateConfigLoop order models = Except.ok models' →
      (∀ p ∈ order, alookup models' p.1 = some p.2) ∧
      (∀ k, (∀ p ∈ order, p.1 ≠ k) → alookup models' k = alookup models k) := by
  intro order
  induction order with
  | nil =>
    intro models models' _ h
    simp only [Fed.mutateConfigLoop] at h
    injection h with h
    subst h
    exact ⟨by simp, fun k _ => rfl⟩
  | cons p rest ih =>
    obtain ⟨tn, entry⟩ := p
    intro models models' hnodup h
    by_cases hex : Fed.modelsExists models tn = true
    · exact absurd h (by simp [Fed.mutateConfigLoop, hex])
    · have hex' : Fed.modelsExists models tn = false := by simpa using hex
      have hstep : Fed.mutateConfigLoop ((tn, entry) :: rest) models =
          Fed.mutateConfigLoop rest (upsert models tn entry) := by
        simp [Fed.mutateConfigLoop, hex']
      rw [hstep] at h
      have hnd : (rest.map Prod.fst).Nodup := by
        have := hnodup
        simp only [List.map_cons, List.nodup_cons] at this
        exact this.2
      have htn : tn ∉ rest.map Prod.fst := by
        have := hnodup
        simp only [List.map_cons, List.nodup_cons] at this
        exact this.1
      rcases ih (upsert models tn entry) models' hnd h with ⟨h1, h2⟩
      constructor
      · intro q hq
        rcases List.mem_cons.mp hq with hq1 | hq2
        · subst hq1
          have : alookup models' tn = alookup (upsert models tn entry) tn := by
            refine h2 tn ?_
            intro r hr heq
            exact htn (heq ▸ List.mem_map_of_mem Prod.fst hr)
          rw [this, alookup_upsert, if_pos rfl]
        · exact h1 q hq2
      · intro k hk
        have hkt : tn ≠ k := hk (tn, entry) (List.mem_cons_self _ _)
        have : alookup models' k = alookup (upsert models tn entry) k := by
          refine h2 k ?_
          intro r hr
          exact hk r (List.mem_cons_of_mem _ hr)
        rw [this, alookup_upsert, if_neg (fun hkk => hkt hkk.symm)]

theorem entityFields_fold (k : String) :
    ∀ (es : List Fed.Entity) (acc : List (String × Bool)),
      (alookup acc k = some true ∨ ∃ e ∈ es, e.resolverName = k) →
      alookup (es.foldl (fun m e => upsert m e.resolverName true) acc) k = some true := by
  intro es
  induction es with
  | nil =>
    intro acc h
    rcases h with h | ⟨e, he, _⟩
    · exact h
    · cases he
  | cons e es ih =>
    intro acc h
    simp only [List.foldl_cons]
    by_cases hek : e.resolverName = k
    · refine ih _ (Or.inl ?_)
      rw [alookup_upsert, if_pos hek.symm]
    · refine ih _ ?_
      rcases h with h | ⟨e', he', hk'⟩
      · refine Or.inl ?_
        rw [alookup_upsert, if_neg (fun hkk => hek hkk.symm)]
        exact h
      · rcases List.mem_cons.mp he' with h1 | h2
        · exact absurd (h1 ▸ hk') hek
        · exact Or.inr ⟨e', h2, hk'⟩

/-- C10: `MutateConfig` fails exactly when the config's model map already
binds one of the reserved names `_Service`, `_Any`, `Entity`; on success
it adds the three reserved entries (one resolver-flagged field per entity
resolver identifier under `Entity`) and leaves every other model entry
unchanged — for any iteration order of the `builtins` map. -/
theorem fed_mutateConfig_spec (entities : List Fed.Entity)
    (order : List (String × Fed.TypeMapEntry)) (models : Fed.Models)
    (hperm : order.Perm (Fed.federationBuiltins entities)) :
    ((∃ s, Fed.mutateConfig order models = Except.error s) ↔
        (Fed.modelsExists models "_Service" = true ∨
          Fed.modelsExists models "_Any" = true ∨
          Fed.modelsExists models "Entity" = true)) ∧
      ∀ models', Fed.mutateConfig order models = Except.ok models' →
        alookup models' "_Service" = some Fed.serviceEntry ∧
        alookup models' "_Any" = some Fed.anyEntry ∧
        alookup models' "Entity" = some (Fed.entityEntry entities) ∧
        (∀ e ∈ entities, alookup (Fed.entityFields entities) e.resolverName = some true) ∧
        (∀ k, k ≠ "_Service" → k ≠ "_Any" → k ≠ "Entity" →
          alookup models' k = alookup models k) := by
  have hmap : (Fed.federationBuiltins entities).map Prod.fst =
      ["_Service", "_Any", "Entity"] := rfl
  have hnodup : (order.map Prod.fst).Nodup := by
    refine ((hperm.map Prod.fst).nodup_iff).mpr ?_
    rw [hmap]
    decide
  have hmemS : ("_Service", Fed.serviceEntry) ∈ Fed.federationBuiltins entities :=
    List.mem_cons_self _ _
  have hmemA : ("_Any", Fed.anyEntry) ∈ Fed.federationBuiltins entities :=
    List.mem_cons_of_mem _ (List.mem_cons_self _ _)
  have hmemE : ("Entity", Fed.entityEntry entities) ∈ Fed.federationBuiltins entities :=
    List.mem_cons_of_mem _ (List.mem_cons_of_mem _ (List.mem_cons_self _ _))
  constructor
  · show (∃ s, Fed.mutateConfigLoop order models = Except.error s) ↔ _
    rw [mutateConfigLoop_error_iff order models hnodup]
    constructor
    · rintro ⟨q, hq, hqe⟩
      have hq' := hperm.mem_iff.mp hq
      simp only [Fed.federationBuiltins, List.mem_cons, List.mem_singleton,
        List.not_mem_nil, or_false] at hq'
      rcases hq' with h | h | h
      · rw [h] at hqe
        exact Or.inl hqe
      · rw [h] at hqe
        exact Or.inr (Or.inl hqe)
      · rw [h] at hqe
        exact Or.inr (Or.inr hqe)
    · intro h
      rcases h with h | h | h
      · exact ⟨("_Service", Fed.serviceEntry), hperm.mem_iff.mpr hmemS, h⟩
      · exact ⟨("_Any", Fed.anyEntry), hperm.mem_iff.mpr hmemA, h⟩
      · exact ⟨("Entity", Fed.entityEntry entities), hperm.mem_iff.mpr hmemE, h⟩
  · intro models' hok
    rcases mutateConfigLoop_ok order models models' hnodup hok with ⟨h1, h2⟩
    refine ⟨?_, ?_, ?_, ?_, ?_⟩
    · exact h1 ("_Service", Fed.serviceEntry) (hperm.mem_iff.mpr hmemS)
    · exact h1 ("_Any", Fed.anyEntry) (hperm.mem_iff.mpr hmemA)
    · exact h1 ("Entity", Fed.entityEntry entities) (hperm.mem_iff.mpr hmemE)
    · intro e he
      exact entityFields_fold e.resolverName entities [] (Or.inr ⟨e, he, rfl⟩)
    · intro k hk1 hk2 hk3
      refine h2 k ?_
      intro q hq
      have hq' := hperm.mem_iff.mp hq
      simp only [Fed.federationBuiltins, List.mem_cons, List.mem_singleton,
        List.not_mem_nil, or_false] at hq'
      rcases hq' with h | h | h
      · rw [h]
        exact fun hh => hk1 hh.symm
      · rw [h]
        exact fun hh => hk2 hh.symm
      · rw [h]
        exact fun hh => hk3 hh.symm

/-! ## Order lemmas for the name sort -/

theorem charListLe_total : ∀ xs ys : List Char,
    charListLe xs ys = true ∨ charListLe ys xs = true := by
  intro xs
  induction xs with
  | nil => intro ys; exact Or.inl rfl
  | cons a as ih =>
    intro ys
    cases ys with
    | nil => exact Or.inr rfl
    | cons b bs =>
      by_cases h1 : a.toNat < b.toNat
      · exact Or.inl (by simp [charListLe, h1])
      · by_cases h2 : b.toNat < a.toNat
        · exact Or.inr (by simp [charListLe, h2])
        · rcases ih bs with h | h
          · refine Or.inl ?_
            simp only [charListLe, if_neg h1, if_neg h2]
            exact h
          · refine Or.inr ?_
            simp only [charListLe, if_neg h2, if_neg h1]
            exact h

theorem charListLe_trans : ∀ xs ys zs : List Char,
    charListLe xs ys = true → charListLe ys zs = true → charListLe xs zs = true := by
  intro xs
  induction xs with
  | nil => intro ys zs _ _; rfl
  | cons a as ih =>
    intro ys zs hxy hyz
    cases ys with
    | nil => simp [charListLe] at hxy
    | cons b bs =>
      cases zs with
      | nil => simp [charListLe] at hyz
      | cons c cs =>
        simp only [charListLe] at hxy hyz ⊢
        by_cases h1 : a.toNat < b.toNat
        · by_cases h2 : b.toNat < c.toNat
          · rw [if_pos (Nat.lt_trans h1 h2)]
          · by_cases h3 : c.toNat < b.toNat
            · rw [if_neg h2, if_pos h3] at hyz
              exact absurd hyz (by simp)
            · have hbc : b.toNat = c.toNat :=
                Nat.le_antisymm (Nat.not_lt.mp h3) (Nat.not_lt.mp h2)
              rw [if_pos (hbc ▸ h1)]
        · by_cases h1' : b.toNat < a.toNat
          · rw [if_neg h1, if_pos h1'] at hxy
            exact absurd hxy (by simp)
          · have hab : a.toNat = b.toNat :=
              Nat.le_antisymm (Nat.not_lt.mp h1') (Nat.not_lt.mp h1)
            rw [if_neg h1, if_neg h1'] at hxy
            by_cases h2 : b.toNat < c.toNat
            · rw [if_pos (hab ▸ h2)]
            · by_cases h3 : c.toNat < b.toNat
              · rw [if_neg h2, if_pos h3] at hyz
                exact absurd hyz (by simp)
              · have hbc : b.toNat = c.toNat :=
                  Nat.le_antisymm (Nat.not_lt.mp h3) (Nat.not_lt.mp h2)
                rw [if_neg h2, if_neg h3] at hyz
                rw [if_neg (by omega : ¬a.toNat < c.toNat),
                  if_neg (by omega : ¬c.toNat < a.toNat)]
                exact ih bs cs hxy hyz

theorem charListLt_of_le_of_ne : ∀ xs ys : List Char,
    charListLe xs ys = true → xs ≠ ys → charListLt xs ys = true := by
  intro xs
  induction xs with
  | nil =>
    intro ys _ hne
    cases ys with
    | nil => exact absurd rfl hne
    | cons b bs => rfl
  | cons a as ih =>
    intro ys hle hne
    cases ys with
    | nil => simp [charListLe] at hle
    | cons b bs =>
      simp only [charListLe] at hle
      simp only [charListLt]
      by_cases h1 : a.toNat < b.toNat
      · rw [if_pos h1]
      · by_cases h2 : b.toNat < a.toNat
        · rw [if_neg h1, if_pos h2] at hle
          exact absurd hle (by simp)
        · have hab : a = b := by
            apply Char.eq_of_val_eq
            apply UInt32.ext
            exact Nat.le_antisymm (Nat.not_lt.mp h2) (Nat.not_lt.mp h1)
          subst hab
          rw [if_neg h1, if_neg h2] at hle
          rw [if_neg h1, if_neg h2]
          exact ih bs hle (fun h => hne (by rw [h]))

theorem charListLt_asymm : ∀ xs ys : List Char,
    charListLt xs ys = true → charListLt ys xs = true → False := by
  intro xs
  induction xs with
  | nil =>
    intro ys h1 _
    cases ys with
    | nil => simp [charListLt] at h1
    | cons b bs => simp [charListLt] at *
  | cons a as ih =>
    intro ys h1 h2
    cases ys with
    | nil => simp [charListLt] at h1
    | cons b bs =>
      simp only [charListLt] at h1 h2
      by_cases hab : a.toNat < b.toNat
      · rw [if_neg (by omega : ¬b.toNat < a.toNat), if_pos hab] at h2
        exact absurd h2 (by simp)
      · by_cases hba : b.toNat < a.toNat
        · rw [if_neg hab, if_pos hba] at h1
          exact absurd h1 (by simp)
        · rw [if_neg hab, if_neg hba] at h1
          rw [if_neg hba, if_neg hab] at h2
          exact ih bs h1 h2

namespace Codegen

theorem sortObjects_eq_of_perm (objs1 objs2 : List IRObject)
    (hperm : objs1.Perm objs2)
    (hnodup : (objs1.map IRObject.definitionName).Nodup) :
    sortObjects objs1 = sortObjects objs2 := by
  haveI htot : IsTotal IRObject (fun a b => objLe a b = true) :=
    ⟨fun a b => charListLe_total _ _⟩
  haveI htr : IsTrans IRObject (fun a b => objLe a b = true) :=
    ⟨fun a b c => charListLe_trans _ _ _⟩
  haveI hanti : IsAntisymm IRObject
      (fun a b => charListLt a.definitionName.data b.definitionName.data = true) :=
    ⟨fun a b h1 h2 => (charListLt_asymm _ _ h1 h2).elim⟩
  have hs1 : List.Sorted (fun a b => objLe a b = true) (sortObjects objs1) :=
    List.sorted_insertionSort _ _
  have hs2 : List.Sorted (fun a b => objLe a b = true) (sortObjects objs2) :=
    List.sorted_insertionSort _ _
  have hp1 : (sortObjects objs1).Perm objs1 := List.perm_insertionSort _ _
  have hp2 : (sortObjects objs2).Perm objs2 := List.perm_insertionSort _ _
  have hp : (sortObjects objs1).Perm (sortObjects objs2) :=
    (hp1.trans hperm).trans hp2.symm
  have hnodup2 : (objs2.map IRObject.definitionName).Nodup :=
    ((hperm.map IRObject.definitionName).nodup_iff).mp hnodup
  have hnd1 : (sortObjects objs1).Pairwise
      (fun a b => a.definitionName ≠ b.definitionName) := by
    have h := ((hp1.map IRObject.definitionName).nodup_iff).mpr hnodup
    simpa [List.Nodup, List.pairwise_map] using h
  have hnd2 : (sortObjects objs2).Pairwise
      (fun a b => a.definitionName ≠ b.definitionName) := by
    have h := ((hp2.map IRObject.definitionName).nodup_iff).mpr hnodup2
    simpa [List.Nodup, List.pairwise_map] using h
  have hstrict1 : List.Sorted
      (fun a b => charListLt a.definitionName.data b.definitionName.data = true)
      (sortObjects objs1) := by
    refine (hs1.and hnd1).imp ?_
    rintro a b ⟨hle, hne⟩
    exact charListLt_of_le_of_ne _ _ hle
      (fun h => hne (by apply String.ext; exact h))
  have hstrict2 : List.Sorted
      (fun a b => charListLt a.definitionName.data b.definitionName.data = true)
      (sortObjects objs2) := by
    refine (hs2.and hnd2).imp ?_
    rintro a b ⟨hle, hne⟩
    exact charListLt_of_le_of_ne _ _ hle
      (fun h => hne (by apply String.ext; exact h))
  exact List.eq_of_perm_of_sorted hp hstrict1 hstrict2

end Codegen

theorem find?_eq_of_unique {α : Type} (p : α → Bool) :
    ∀ {l : List α} {o : α}, o ∈ l → p o = true →
      (∀ a ∈ l, p a = true → a = o) → l.find? p = some o := by
  intro l
  induction l with
  | nil => intro o ho _ _; cases ho
  | cons a rest ih =>
    intro o ho hp huniq
    by_cases hpa : p a = true
    · have : a = o := huniq a (List.mem_cons_self _ _) hpa
      subst this
      exact List.find?_cons_of_pos _ hpa
    · have hpa' : ¬p a := hpa
      rw [List.find?_cons_of_neg _ hpa']
      have hor : o ∈ rest := by
        rcases List.mem_cons.mp ho with h1 | h1
        · subst h1; exact absurd hp hpa
        · exact h1
      exact ih hor hp (fun b hb hpb => huniq b (List.mem_cons_of_mem _ hb) hpb)

namespace Codegen

/-! ### Loop characterization -/

theorem buildLoopStep_ok (bind : String → String) (st : LoopState) (t : Definition)
    (h : stepOK t = true) :
    buildLoopStep bind st t = Outcome.ok
      { objects := st.objects ++ (objOf bind t).toList
        inputs := st.inputs ++ (inputOf bind t).toList
        interfaces := interStep st.interfaces t
        entities := st.entities ++ (entOf bind t).toList } := by
  cases hk : t.kind with
  | object =>
    simp only [stepOK, hk, if_pos] at h
    simp only [buildLoopStep, objOf, inputOf, entOf, interStep, hk]
    cases hd : directivesForName t.directives "key" with
    | none => simp
    | some dir =>
      rw [hd] at h
      simp only [Bool.and_eq_true, Bool.not_eq_true'] at h
      obtain ⟨ha, hf⟩ := h
      cases hargs : dir.arguments with
      | nil => rw [hargs] at ha; simp at ha
      | cons arg0 rest =>
        cases hfields : t.fields with
        | nil => rw [hfields] at hf; simp at hf
        | cons f0 fs =>
          simp [hargs, hfields, buildObject, buildField]
  | inputObject =>
    simp only [buildLoopStep, objOf, inputOf, entOf, interStep, hk]
    simp
  | union =>
    simp only [buildLoopStep, objOf, inputOf, entOf, interStep, hk]
    simp
  | interfaceKind =>
    simp only [buildLoopStep, objOf, inputOf, entOf, interStep, hk]
    simp
  | scalar =>
    simp only [buildLoopStep, objOf, inputOf, entOf, interStep, hk]
    simp
  | enum =>
    simp only [buildLoopStep, objOf, inputOf, entOf, interStep, hk]
    simp

theorem buildLoopStep_panic (bind : String → String) (st : LoopState) (t : Definition)
    (h : stepOK t = false) :
    ∃ m, buildLoopStep bind st t = Outcome.panicked m := by
  cases hk : t.kind with
  | object =>
    simp only [stepOK, hk, if_pos] at h
    simp only [buildLoopStep, hk]
    cases hd : directivesForName t.directives "key" with
    | none => rw [hd] at h; simp at h
    | some dir =>
      rw [hd] at h
      cases hargs : dir.arguments with
      | nil =>
        refine ⟨"runtime error: index out of range", ?_⟩
        simp [hd, hargs]
      | cons arg0 rest =>
        cases hfields : t.fields with
        | nil =>
          refine ⟨"runtime error: index out of range", ?_⟩
          simp [hd, hargs, hfields, buildObject, buildField]
        | cons f0 fs => simp [hargs, hfields] at h
  | inputObject => simp [stepOK, hk] at h
  | union => simp [stepOK, hk] at h
  | interfaceKind => simp [stepOK, hk] at h
  | scalar => simp [stepOK, hk] at h
  | enum => simp [stepOK, hk] at h

theorem buildLoopFrom_ok (bind : String → String) :
    ∀ (ts : List Definition) (st : LoopState),
      (∀ t ∈ ts, stepOK t = true) →
      buildLoopFrom bind st ts = Outcome.ok
        { objects := st.objects ++ ts.filterMap (objOf bind)
          inputs := st.inputs ++ ts.filterMap (inputOf bind)
          interfaces := ts.foldl interStep st.interfaces
          entities := st.entities ++ ts.filterMap (entOf bind) } := by
  intro ts
  induction ts with
  | nil => intro st _; simp [buildLoopFrom]
  | cons t ts ih =>
    intro st h
    have ht := h t (List.mem_cons_self _ _)
    have hstep := buildLoopStep_ok bind st t ht
    simp only [buildLoopFrom, hstep]
    rw [ih _ (fun u hu => h u (List.mem_cons_of_mem _ hu))]
    cases ho : objOf bind t <;> cases hi : inputOf bind t <;> cases he : entOf bind t <;>
      simp [List.filterMap_cons, ho, hi, he, Option.toList, List.append_assoc]

theorem buildLoopFrom_ok_stepOK (bind : String → String) :
    ∀ (ts : List Definition) (st st' : LoopState),
      buildLoopFrom bind st ts = Outcome.ok st' → ∀ t ∈ ts, stepOK t = true := by
  intro ts
  induction ts with
  | nil => intro st st' _ t ht; cases ht
  | cons t ts ih =>
    intro st st' h u hu
    simp only [buildLoopFrom] at h
    cases hso : stepOK t with
    | false =>
      rcases buildLoopStep_panic bind st t hso with ⟨m, hm⟩
      rw [hm] at h
      cases h
    | true =>
      rcases List.mem_cons.mp hu with h1 | h2
      · exact h1 ▸ hso
      · rw [buildLoopStep_ok bind st t hso] at h
        exact ih _ st' h u h2

/-! ### Lookup and update lemmas -/

theorem byName_updateFirst (n : String) (f : IRObject → IRObject)
    (hf : ∀ o, (f o).definitionName = o.definitionName) :
    ∀ objs : List IRObject,
      byName (updateFirstByName n f objs) n = (byName objs n).map f := by
  intro objs
  induction objs with
  | nil => rfl
  | cons o rest ih =>
    by_cases h : o.definitionName = n
    · have hb : (o.definitionName == n) = true := by simpa using h
      simp only [updateFirstByName, hb, if_true, byName]
      rw [List.find?_cons_of_pos _ (by simpa [hf o] using h),
        List.find?_cons_of_pos _ (by simpa using h)]
      rfl
    · have hb : (o.definitionName == n) = false := by simpa using h
      simp only [updateFirstByName, hb, Bool.false_eq_true, if_false, byName]
      rw [List.find?_cons_of_neg _ (by simpa using h),
        List.find?_cons_of_neg _ (by simpa using h)]
      exact ih

theorem names_updateFirst (n : String) (f : IRObject → IRObject)
    (hf : ∀ o, (f o).definitionName = o.definitionName) :
    ∀ objs : List IRObject,
      (updateFirstByName n f objs).map IRObject.definitionName =
        objs.map IRObject.definitionName := by
  intro objs
  induction objs with
  | nil => rfl
  | cons o rest ih =>
    by_cases h : o.definitionName = n
    · have hb : (o.definitionName == n) = true := by simpa using h
      simp only [updateFirstByName, hb, if_true, List.map_cons, hf o]
    · have hb : (o.definitionName == n) = false := by simpa using h
      simp only [updateFirstByName, hb, Bool.false_eq_true, if_false, List.map_cons, ih]

theorem mapIf_id (n : String) (f : IRObject → IRObject) :
    ∀ objs : List IRObject, n ∉ objs.map IRObject.definitionName →
      objs.map (fun o => if o.definitionName == n then f o else o) = objs := by
  intro objs
  induction objs with
  | nil => intro _; rfl
  | cons o rest ih =>
    intro hn
    simp only [List.map_cons, List.mem_cons] at hn
    push_neg at hn
    have hb : (o.definitionName == n) = false := by
      refine beq_eq_false_iff_ne.mpr ?_
      exact fun hh => hn.1 hh.symm
    simp only [List.map_cons, hb, Bool.false_eq_true, if_false]
    rw [ih hn.2]

theorem updateFirst_eq_map (n : String) (f : IRObject → IRObject) :
    ∀ objs : List IRObject, (objs.map IRObject.definitionName).Nodup →
      updateFirstByName n f objs =
        objs.map (fun o => if o.definitionName == n then f o else o) := by
  intro objs
  induction objs with
  | nil => intro _; rfl
  | cons o rest ih =>
    intro hnodup
    simp only [List.map_cons, List.nodup_cons] at hnodup
    by_cases h : o.definitionName = n
    · have hb : (o.definitionName == n) = true := by simpa using h
      simp only [updateFirstByName, hb, if_true, List.map_cons]
      rw [mapIf_id n f rest (h ▸ hnodup.1)]
    · have hb : (o.definitionName == n) = false := by simpa using h
      simp only [updateFirstByName, hb, Bool.false_eq_true, if_false, List.map_cons]
      rw [ih hnodup.2]

theorem byName_perm (n : String) (objs1 objs2 : List IRObject)
    (hperm : objs1.Perm objs2)
    (hnodup : (objs1.map IRObject.definitionName).Nodup) :
    byName objs1 n = byName objs2 n := by
  unfold byName
  cases hb : List.find? (fun o => o.definitionName == n) objs1 with
  | none =>
    have hall := List.find?_eq_none.mp hb
    exact (List.find?_eq_none.mpr (fun a ha => hall a (hperm.mem_iff.mpr ha))).symm
  | some o =>
    have ho : o ∈ objs1 := List.mem_of_find?_eq_some hb
    have hp := List.find?_some hb
    symm
    apply find?_eq_of_unique _ (hperm.mem_iff.mp ho) hp
    intro a ha hpa
    refine List.inj_on_of_nodup_map hnodup (hperm.mem_iff.mpr ha) ho ?_
    have h1 : a.definitionName = n := by simpa using hpa
    have h2 : o.definitionName = n := by simpa using hp
    rw [h1, h2]

theorem names_filterMap_objOf_sublist (bind : String → String) :
    ∀ ts : List Definition,
      ((ts.filterMap (objOf bind)).map IRObject.definitionName).Sublist
        (ts.map Definition.name) := by
  intro ts
  induction ts with
  | nil => exact List.Sublist.refl _
  | cons t ts ih =>
    by_cases h : t.kind = DefinitionKind.object
    · have : objOf bind t = some (buildObject bind t) := by simp [objOf, h]
      simp only [List.filterMap_cons, this, List.map_cons]
      exact List.Sublist.cons₂ _ ih
    · have : objOf bind t = none := by simp [objOf, h]
      simp only [List.filterMap_cons, this, List.map_cons]
      exact List.Sublist.cons _ ih

theorem names_filterMap_inputOf_sublist (bind : String → String) :
    ∀ ts : List Definition,
      ((ts.filterMap (inputOf bind)).map IRObject.definitionName).Sublist
        (ts.map Definition.name) := by
  intro ts
  induction ts with
  | nil => exact List.Sublist.refl _
  | cons t ts ih =>
    by_cases h : t.kind = DefinitionKind.inputObject
    · have : inputOf bind t = some (buildObject bind t) := by simp [inputOf, h]
      simp only [List.filterMap_cons, this, List.map_cons]
      exact List.Sublist.cons₂ _ ih
    · have : inputOf bind t = none := by simp [inputOf, h]
      simp only [List.filterMap_cons, this, List.map_cons]
      exact List.Sublist.cons _ ih

/-! ### Inversion of a successful non-federated build -/

theorem buildData_unfederated_ok (bind : String → String)
    (print : List Definition → String) (s : SchemaIn) (d : IRData)
    (h : buildData false bind print s = Outcome.ok d) :
    ∃ qn, s.queryName = some qn ∧ (∀ t ∈ s.types, stepOK t = true) ∧
      d.objects = sortObjects (updateFirstByName qn
        (appendObjFields (introspectionFields bind)) (s.types.filterMap (objOf bind))) ∧
      d.inputs = sortObjects (s.types.filterMap (inputOf bind)) ∧
      d.entities = s.types.filterMap (entOf bind) := by
  unfold buildData at h
  cases hl : buildLoop bind s.types with
  | err e => simp only [hl] at h; cases h
  | panicked m => simp only [hl] at h; cases h
  | exited nn => simp only [hl] at h; cases h
  | ok st =>
    simp only [hl] at h
    cases hq : s.queryName with
    | none => simp only [hq] at h; cases h
    | some qn =>
      simp only [hq] at h
      cases hi : injectIntrospectionRoots bind qn st.objects with
      | err e => simp only [hi] at h; cases h
      | panicked m => simp only [hi] at h; cases h
      | exited nn => simp only [hi] at h; cases h
      | ok objs1 =>
        simp only [hi] at h
        injection h with h
        have hl' : buildLoopFrom bind {} s.types = Outcome.ok st := hl
        have hstep := buildLoopFrom_ok_stepOK bind s.types {} st hl'
        have hchar := buildLoopFrom_ok bind s.types {} hstep
        rw [hl'] at hchar
        injection hchar with hchar
        unfold injectIntrospectionRoots at hi
        cases hbn : byName st.objects qn with
        | none => simp only [hbn] at hi; cases hi
        | some qobj =>
          simp only [hbn] at hi
          injection hi with hi
          refine ⟨qn, rfl, hstep, ?_, ?_, ?_⟩
          · rw [← h]
            show sortObjects objs1 = _
            rw [← hi, hchar]
            simp
          · rw [← h]
            show sortObjects st.inputs = _
            rw [hchar]
            simp
          · rw [← h]
            show st.entities = _
            rw [hchar]
            simp

/-! ### Schema type-map lemmas -/

theorem defsFind_cons (d0 : Definition) (rest : List Definition) (m : String) :
    defsFind (d0 :: rest) m = if d0.name = m then some d0 else defsFind rest m := by
  by_cases h : d0.name = m
  · simp only [defsFind]
    rw [List.find?_cons_of_pos _ (by simpa using h)]
    simp [h]
  · simp only [defsFind]
    rw [List.find?_cons_of_neg _ (by simpa using h)]
    simp [h]

theorem defsFind_update_self (n : String) (f : Definition → Definition)
    (hf : ∀ d, (f d).name = d.name) :
    ∀ ds : List Definition,
      defsFind (defsUpdate n f ds) n = (defsFind ds n).map f := by
  intro ds
  induction ds with
  | nil => rfl
  | cons d0 rest ih =>
    by_cases h : d0.name = n
    · have hb : (d0.name == n) = true := by simpa using h
      simp only [defsUpdate, hb, if_true]
      rw [defsFind_cons, defsFind_cons, if_pos (by rw [hf d0]; exact h), if_pos h]
      rfl
    · have hb : (d0.name == n) = false := by simpa using h
      simp only [defsUpdate, hb, Bool.false_eq_true, if_false]
      rw [defsFind_cons, defsFind_cons, if_neg h, if_neg h]
      exact ih

theorem defsFind_update_ne (n : String) (f : Definition → Definition)
    (hf : ∀ d, (f d).name = d.name) (m : String) (hm : m ≠ n) :
    ∀ ds : List Definition,
      defsFind (defsUpdate n f ds) m = defsFind ds m := by
  intro ds
  induction ds with
  | nil => rfl
  | cons d0 rest ih =>
    by_cases h : d0.name = n
    · have hb : (d0.name == n) = true := by simpa using h
      simp only [defsUpdate, hb, if_true]
      rw [defsFind_cons, defsFind_cons]
      have hne : ¬d0.name = m := fun hh => hm ((hh.symm.trans h))
      rw [if_neg (by rw [hf d0]; exact hne), if_neg hne]
    · have hb : (d0.name == n) = false := by simpa using h
      simp only [defsUpdate, hb, Bool.false_eq_true, if_false]
      rw [defsFind_cons, defsFind_cons]
      by_cases h2 : d0.name = m
      · rw [if_pos h2, if_pos h2]
      · rw [if_neg h2, if_neg h2]
        exact ih

theorem defsFind_upsert_self (d : Definition) (m : String) (hm : d.name = m) :
    ∀ ds : List Definition, defsFind (defsUpsert ds d) m = some d := by
  intro ds
  induction ds with
  | nil =>
    show defsFind [d] m = some d
    rw [defsFind_cons, if_pos hm]
  | cons d0 rest ih =>
    by_cases h : d0.name = d.name
    · have hb : (d0.name == d.name) = true := by simpa using h
      simp only [defsUpsert, hb, if_true]
      rw [defsFind_cons, if_pos hm]
    · have hb : (d0.name == d.name) = false := by simpa using h
      simp only [defsUpsert, hb, Bool.false_eq_true, if_false]
      rw [defsFind_cons, if_neg (fun hh => h (hh.trans hm.symm))]
      exact ih

theorem defsFind_upsert_ne (d : Definition) (m : String) (hm : m ≠ d.name) :
    ∀ ds : List Definition, defsFind (defsUpsert ds d) m = defsFind ds m := by
  intro ds
  induction ds with
  | nil =>
    show defsFind [d] m = defsFind [] m
    rw [defsFind_cons, if_neg (fun hh => hm hh.symm)]
  | cons d0 rest ih =>
    by_cases h : d0.name = d.name
    · have hb : (d0.name == d.name) = true := by simpa using h
      simp only [defsUpsert, hb, if_true]
      rw [defsFind_cons, defsFind_cons]
      have hne : ¬d0.name = m := fun hh => hm (hh.symm.trans h)
      rw [if_neg (fun hh => hm hh.symm : ¬d.name = m), if_neg hne]
    · have hb : (d0.name == d.name) = false := by simpa using h
      simp only [defsUpsert, hb, Bool.false_eq_true, if_false]
      rw [defsFind_cons, defsFind_cons]
      by_cases h2 : d0.name = m
      · rw [if_pos h2, if_pos h2]
      · rw [if_neg h2, if_neg h2]
        exact ih

/-! ### More object-list lemmas -/

theorem byName_map_of_preserve (g : IRObject → IRObject)
    (hg : ∀ o, (g o).definitionName = o.definitionName) (n : String)
    (objs : List IRObject) :
    byName (objs.map g) n = (byName objs n).map g := by
  unfold byName
  rw [List.find?_map]
  have hpred : ((fun o : IRObject => o.definitionName == n) ∘ g) =
      (fun o : IRObject => o.definitionName == n) := by
    funext o
    simp [Function.comp, hg o]
  rw [hpred]

theorem byName_fields_implFold (union : Definition) (n : String) :
    ∀ (ents : List CEntity) (objs : List IRObject),
      (byName (ents.foldl
          (fun os e => os.map (fun o =>
            if o.definitionName = e.name then
              { o with implements := o.implements ++ [union] }
            else o)) objs) n).map (fun o => o.fields) =
        (byName objs n).map (fun o => o.fields) := by
  intro ents
  induction ents with
  | nil => intro objs; rfl
  | cons e es ih =>
    intro objs
    rw [List.foldl_cons, ih]
    rw [byName_map_of_preserve _
      (fun o => by by_cases hc : o.definitionName = e.name <;> simp [hc]) n]
    cases byName objs n with
    | none => rfl
    | some o =>
      simp only [Option.map_some']
      by_cases hc : o.definitionName = e.name <;> simp [hc]

theorem names_implFold (union : Definition) :
    ∀ (ents : List CEntity) (objs : List IRObject),
      ((ents.foldl
          (fun os e => os.map (fun o =>
            if o.definitionName = e.name then
              { o with implements := o.implements ++ [union] }
            else o)) objs).map IRObject.definitionName) =
        objs.map IRObject.definitionName := by
  intro ents
  induction ents with
  | nil => intro objs; rfl
  | cons e es ih =>
    intro objs
    rw [List.foldl_cons, ih, List.map_map]
    congr 1
    funext o
    by_cases hc : o.definitionName = e.name <;> simp [hc]

theorem byName_append_left (objs l2 : List IRObject) (n : String) (o : IRObject)
    (h : byName objs n = some o) : byName (objs ++ l2) n = some o := by
  unfold byName at *
  rw [List.find?_append, h]
  rfl

theorem byName_filterMap_objOf (bind : String → String) (ts : List Definition)
    (qn : String) (qdef : Definition)
    (hfind : defsFind ts qn = some qdef)
    (hkind : qdef.kind = DefinitionKind.object)
    (hnodup : (ts.map Definition.name).Nodup) :
    byName (ts.filterMap (objOf bind)) qn = some (buildObject bind qdef) := by
  have hqmem : qdef ∈ ts := List.mem_of_find?_eq_some hfind
  have hqname : qdef.name = qn := by simpa using List.find?_some hfind
  unfold byName
  apply find?_eq_of_unique
  · exact List.mem_filterMap.mpr ⟨qdef, hqmem, by simp [objOf, hkind]⟩
  · simpa [buildObject] using hqname
  · intro o ho hpo
    rcases List.mem_filterMap.mp ho with ⟨t, ht, hto⟩
    have htkind : t.kind = DefinitionKind.object := by
      by_contra hk
      simp [objOf, hk] at hto
    have hot : o = buildObject bind t := by
      simp [objOf, htkind] at hto
      exact hto.symm
    have htn : t.name = qn := by
      have hpo' : o.definitionName = qn := by simpa using hpo
      rw [hot] at hpo'
      exact hpo'
    have hteq : t = qdef :=
      List.inj_on_of_nodup_map hnodup ht hqmem (by rw [htn, hqname])
    rw [hot, hteq]

end Codegen

/-! ### The `GenerateCode` key-type binding -/

theorem getLast?_cons_getD {α : Type} (l : List α) :
    ∀ a d : α, ((a :: l).getLast?).getD d = (l.getLast?).getD a := by
  induction l with
  | nil => intro a d; rfl
  | cons b l' ih =>
    intro a d
    rw [List.getLast?_cons_cons, ih b d, ih b a]

theorem bindFold_spec :
    ∀ (fs : List Codegen.IRField) (e : Fed.Entity),
      fs.foldl (fun acc f =>
        if f.name == acc.fieldName then { acc with fieldTypeGo := f.goType } else acc) e =
      { e with fieldTypeGo :=
          (((fs.filter (fun f => f.name == e.fieldName)).map
            Codegen.IRField.goType).getLast?).getD e.fieldTypeGo } := by
  intro fs
  induction fs with
  | nil => intro e; rfl
  | cons f fs ih =>
    intro e
    rw [List.foldl_cons]
    by_cases hc : f.name = e.fieldName
    · have hb : (f.name == e.fieldName) = true := by simpa using hc
      simp only [hb, if_true]
      rw [ih]
      simp only [List.filter_cons, hb, if_true, List.map_cons]
      rw [getLast?_cons_getD]
    · have hb : (f.name == e.fieldName) = false := by simpa using hc
      simp only [hb, Bool.false_eq_true, if_false, List.filter_cons]
      exact ih e

theorem bindFieldTypeGo_spec (objs : List Codegen.IRObject) (e : Fed.Entity)
    (obj : Codegen.IRObject) (g : String)
    (hobj : Codegen.byName objs e.name = some obj)
    (hfield : (obj.fields.filter (fun f => f.name == e.fieldName)).map
      Codegen.IRField.goType = [g]) :
    Fed.bindFieldTypeGo objs e = Outcome.ok { e with fieldTypeGo := g } := by
  unfold Fed.bindFieldTypeGo
  simp only [hobj]
  rw [bindFold_spec, hfield]
  rfl

/-! ### Value of a successful federated build -/

namespace Codegen

theorem buildData_federated_eq (bind : String → String)
    (print : List Definition → String) (sIn : SchemaIn) (qn : String)
    (qdef : Definition)
    (hq : sIn.queryName = some qn)
    (hfind : defsFind sIn.types qn = some qdef)
    (hkind : qdef.kind = DefinitionKind.object)
    (hok : ∀ t ∈ sIn.types, stepOK t = true)
    (hnodup : (sIn.types.map Definition.name).Nodup) :
    buildData true bind print sIn = Outcome.ok
      { objects := sortObjects (federatedObjects bind qn
          (sIn.types.filterMap (entOf bind))
          (updateFirstByName qn (appendObjFields (introspectionFields bind))
            (sIn.types.filterMap (objOf bind))))
        inputs := sortObjects (sIn.types.filterMap (inputOf bind))
        interfaces := upsert (sIn.types.foldl interStep [])
          "_Entity" (buildInterface (entityUnionDef (sIn.types.filterMap (entOf bind))))
        entities := sIn.types.filterMap (entOf bind)
        queryRootName := qn
        schemaTypes := federatedSchemaTypes qn (sIn.types.filterMap (entOf bind)) sIn.types
        schemaPossibleTypes := upsert sIn.possibleTypes "_Entity"
          ((sIn.types.filterMap (entOf bind)).map CEntity.defn)
        sdl := publishedSDL (print (federatedSchemaTypes qn
          (sIn.types.filterMap (entOf bind)) sIn.types)) } := by
  have hl : buildLoop bind sIn.types = Outcome.ok
      { objects := sIn.types.filterMap (objOf bind)
        inputs := sIn.types.filterMap (inputOf bind)
        interfaces := sIn.types.foldl interStep []
        entities := sIn.types.filterMap (entOf bind) } := by
    show buildLoopFrom bind {} sIn.types = _
    have h := buildLoopFrom_ok bind sIn.types {} hok
    simpa using h
  have hbn := byName_filterMap_objOf bind sIn.types qn qdef hfind hkind hnodup
  have hi : injectIntrospectionRoots bind qn (sIn.types.filterMap (objOf bind)) =
      Outcome.ok (updateFirstByName qn (appendObjFields (introspectionFields bind))
        (sIn.types.filterMap (objOf bind))) := by
    unfold injectIntrospectionRoots
    rw [hbn]
  unfold buildData
  simp only [hl, hq, hi]
  rfl

theorem byName_sorted_federatedObjects (bind : String → String) (qn : String)
    (ents : List CEntity) (objs1 : List IRObject) (o1 : IRObject)
    (hbn1 : byName objs1 qn = some o1)
    (hnodup : (objs1.map IRObject.definitionName).Nodup)
    (hsvc : "_Service" ∉ objs1.map IRObject.definitionName) :
    (byName (sortObjects (federatedObjects bind qn ents objs1)) qn).map
        (fun o => o.fields) =
      some (o1.fields ++ [buildField bind entitiesFieldDef] ++
        [buildField bind serviceFieldDef]) := by
  have hnameF : (federatedObjects bind qn ents objs1).map IRObject.definitionName =
      objs1.map IRObject.definitionName ++ ["_Service"] := by
    unfold federatedObjects
    rw [names_updateFirst qn (appendObjFields [buildField bind serviceFieldDef])
        (fun o => rfl),
      List.map_append,
      names_updateFirst qn (appendObjFields [buildField bind entitiesFieldDef])
        (fun o => rfl),
      names_implFold]
    rfl
  have hnodupF : ((federatedObjects bind qn ents objs1).map
      IRObject.definitionName).Nodup := by
    rw [hnameF]
    refine List.Nodup.append hnodup (by simp) ?_
    intro a ha hb
    rw [List.mem_singleton] at hb
    subst hb
    exact hsvc ha
  have hperm : (sortObjects (federatedObjects bind qn ents objs1)).Perm
      (federatedObjects bind qn ents objs1) :=
    List.perm_insertionSort _ _
  have hnodupS : ((sortObjects (federatedObjects bind qn ents objs1)).map
      IRObject.definitionName).Nodup :=
    ((hperm.map _).nodup_iff).mpr hnodupF
  rw [byName_perm qn _ _ hperm hnodupS]
  unfold federatedObjects
  rw [byName_updateFirst qn (appendObjFields [buildField bind serviceFieldDef])
    (fun o => rfl)]
  have hfold := byName_fields_implFold (entityUnionDef ents) qn ents objs1
  rw [hbn1] at hfold
  rcases Option.map_eq_some'.mp hfold with ⟨oU, hoU, hUf⟩
  have hupdE : byName (updateFirstByName qn
      (appendObjFields [buildField bind entitiesFieldDef])
      (ents.foldl
        (fun os e => os.map (fun o =>
          if o.definitionName = e.name then
            { o with implements := o.implements ++ [entityUnionDef ents] }
          else o)) objs1)) qn =
      some (appendObjFields [buildField bind entitiesFieldDef] oU) := by
    rw [byName_updateFirst qn (appendObjFields [buildField bind entitiesFieldDef])
      (fun o => rfl), hoU]
    rfl
  rw [byName_append_left _ _ _ _ hupdE]
  simp [appendObjFields, hUf, List.append_assoc]

theorem entOf_names (bind : String → String) :
    ∀ ts : List Definition, (∀ t ∈ ts, stepOK t = true) →
      (ts.filterMap (entOf bind)).map CEntity.name = keyedTypeNames ts := by
  intro ts
  induction ts with
  | nil => intro _; rfl
  | cons t ts ih =>
    intro h
    have ht := h t (List.mem_cons_self _ _)
    have hrest := ih (fun u hu => h u (List.mem_cons_of_mem _ hu))
    by_cases hk : t.kind = DefinitionKind.object
    · cases hd : directivesForName t.directives "key" with
      | none =>
        have he : entOf bind t = none := by simp [entOf, hk, hd]
        simp [List.filterMap_cons, he, keyedTypeNames, List.filter_cons, hk, hd, hrest]
      | some dir =>
        have ht' : (!dir.arguments.isEmpty && !t.fields.isEmpty) = true := by
          simpa [stepOK, hk, hd] using ht
        simp only [Bool.and_eq_true, Bool.not_eq_true'] at ht'
        obtain ⟨ha, hf⟩ := ht'
        cases hargs : dir.arguments with
        | nil => rw [hargs] at ha; simp at ha
        | cons a args' =>
          cases hfields : t.fields with
          | nil => rw [hfields] at hf; simp at hf
          | cons f0 fs' =>
            have he : entOf bind t = some
                { name := t.name, fieldName := a.raw, fieldType := bind f0.type,
                  defn := t } := by
              simp [entOf, hk, hd, hargs, hfields]
            simp [List.filterMap_cons, he, keyedTypeNames, List.filter_cons, hk, hd,
              hrest]
    · have he : entOf bind t = none := by simp [entOf, hk]
      have hkb : (t.kind == DefinitionKind.object) = false := by simpa using hk
      simp [List.filterMap_cons, he, keyedTypeNames, List.filter_cons, hkb, hrest]

theorem entOf_defn_name (bind : String → String) (ts : List Definition) :
    ∀ e ∈ ts.filterMap (entOf bind), e.defn.name = e.name ∧
      ∃ f0, e.defn.fields.head? = some f0 ∧ e.fieldType = bind f0.type := by
  intro e he
  rcases List.mem_filterMap.mp he with ⟨t, _, hte⟩
  unfold entOf at hte
  by_cases hk : t.kind = DefinitionKind.object
  · rw [if_pos hk] at hte
    cases hd : directivesForName t.directives "key" with
    | none =>
      simp only [hd] at hte
      cases hte
    | some dir =>
      simp only [hd] at hte
      cases hargs : dir.arguments with
      | nil => simp [hargs] at hte
      | cons a args' =>
        cases hfields : t.fields with
        | nil => simp [hargs, hfields] at hte
        | cons f0 fs' =>
          simp only [hargs, hfields] at hte
          injection hte with hte
          subst hte
          exact ⟨rfl, f0, by rw [hfields]; rfl, rfl⟩
  · rw [if_neg hk] at hte
    cases hte

end Codegen

/-- C10 (witness): `mutateConfig` at a reversed iteration order of the
builtins map on an empty model map. -/
theorem fed_mutateConfig_spec_witness :
    ((∃ s, Fed.mutateConfig
          (Fed.federationBuiltins [boundProductEntity]).reverse [] = Except.error s) ↔
        (Fed.modelsExists [] "_Service" = true ∨
          Fed.modelsExists [] "_Any" = true ∨
          Fed.modelsExists [] "Entity" = true)) ∧
      ∀ models', Fed.mutateConfig
          (Fed.federationBuiltins [boundProductEntity]).reverse [] = Except.ok models' →
        alookup models' "_Service" = some Fed.serviceEntry ∧
        alookup models' "_Any" = some Fed.anyEntry ∧
        alookup models' "Entity" = some (Fed.entityEntry [boundProductEntity]) ∧
        (∀ e ∈ [boundProductEntity],
          alookup (Fed.entityFields [boundProductEntity]) e.resolverName = some true) ∧
        (∀ k, k ≠ "_Service" → k ≠ "_Any" → k ≠ "Entity" →
          alookup models' k = alookup [] k) :=
  fed_mutateConfig_spec [boundProductEntity]
    (Fed.federationBuiltins [boundProductEntity]).reverse []
    (List.reverse_perm _)

/-! ## Claim C2 -/

/-- C2 (counterexample): on a Query-only schema, after the build the
Query IR object's field list carries `__type`/`__schema` but the schema
Query definition's field list does not — the two lists differ. -/
theorem introspection_sync_counterexample :
    Codegen.irQueryFieldNames (Codegen.buildData true mockBind mockPrint sInQueryOnly) =
      some ["hello", "__type", "__schema", "_entities", "_service"] ∧
    Codegen.schemaQueryFieldNames
        (Codegen.buildData true mockBind mockPrint sInQueryOnly) =
      some ["hello", "_entities", "_service"] ∧
    Codegen.irQueryFieldNames (Codegen.buildData true mockBind mockPrint sInQueryOnly) ≠
      Codegen.schemaQueryFieldNames
        (Codegen.buildData true mockBind mockPrint sInQueryOnly) :=
  ⟨by decide, by decide, by decide⟩

/-- C2 (amended): `injectIntrospectionRoots` appends `__type`/`__schema`
to the Query IR object only, not to the schema Query definition, so from
that point on the two field lists differ by exactly those two fields; the
subsequent `_entities` and `_service` injections append to both lists and
preserve that fixed difference. -/
theorem introspection_fields_ir_only
    (bind : String → String) (print : List Definition → String)
    (sIn : Codegen.SchemaIn) (qn : String) (qdef : Definition)
    (hq : sIn.queryName = some qn)
    (hfind : Codegen.defsFind sIn.types qn = some qdef)
    (hkind : qdef.kind = DefinitionKind.object)
    (hok : ∀ t ∈ sIn.types, Codegen.stepOK t = true)
    (hnodup : (sIn.types.map Definition.name).Nodup)
    (hqe : qn ≠ "_Entity") (hqs : qn ≠ "_Service")
    (hsvc : "_Service" ∉ sIn.types.map Definition.name) :
    Codegen.irQueryFieldNames (Codegen.buildData true bind print sIn) =
      some (qdef.fields.map FieldDefinition.name ++
        ["__type", "__schema", "_entities", "_service"]) ∧
    Codegen.schemaQueryFieldNames (Codegen.buildData true bind print sIn) =
      some (qdef.fields.map FieldDefinition.name ++ ["_entities", "_service"]) := by
  rw [Codegen.buildData_federated_eq bind print sIn qn qdef hq hfind hkind hok hnodup]
  constructor
  · have hbn0 := Codegen.byName_filterMap_objOf bind sIn.types qn qdef hfind hkind hnodup
    have hbn1 : Codegen.byName
        (Codegen.updateFirstByName qn
          (Codegen.appendObjFields (Codegen.introspectionFields bind))
          (sIn.types.filterMap (Codegen.objOf bind))) qn =
        some (Codegen.appendObjFields (Codegen.introspectionFields bind)
          (Codegen.buildObject bind qdef)) := by
      rw [Codegen.byName_updateFirst qn
        (Codegen.appendObjFields (Codegen.introspectionFields bind)) (fun o => rfl),
        hbn0]
      rfl
    have hnodupO : ((sIn.types.filterMap (Codegen.objOf bind)).map
        Codegen.IRObject.definitionName).Nodup :=
      hnodup.sublist (Codegen.names_filterMap_objOf_sublist bind sIn.types)
    have hnodupO1 : ((Codegen.updateFirstByName qn
        (Codegen.appendObjFields (Codegen.introspectionFields bind))
        (sIn.types.filterMap (Codegen.objOf bind))).map
        Codegen.IRObject.definitionName).Nodup := by
      rw [Codegen.names_updateFirst qn
        (Codegen.appendObjFields (Codegen.introspectionFields bind)) (fun o => rfl)]
      exact hnodupO
    have hsvcO1 : "_Service" ∉ (Codegen.updateFirstByName qn
        (Codegen.appendObjFields (Codegen.introspectionFields bind))
        (sIn.types.filterMap (Codegen.objOf bind))).map
        Codegen.IRObject.definitionName := by
      rw [Codegen.names_updateFirst qn
        (Codegen.appendObjFields (Codegen.introspectionFields bind)) (fun o => rfl)]
      intro hmem
      exact hsvc ((Codegen.names_filterMap_objOf_sublist bind sIn.types).subset hmem)
    have hq2 := Codegen.byName_sorted_federatedObjects bind qn
      (sIn.types.filterMap (Codegen.entOf bind)) _ _ hbn1 hnodupO1 hsvcO1
    rcases Option.map_eq_some'.mp hq2 with ⟨oF, hoF, hoFf⟩
    simp only [Codegen.irQueryFieldNames, hoF, Option.map_some']
    rw [hoFf]
    simp [Codegen.appendObjFields, Codegen.buildObject, Codegen.buildField,
      Codegen.introspectionFields, Codegen.entitiesFieldDef, Codegen.serviceFieldDef,
      List.map_append, List.map_map, Function.comp]
  · simp only [Codegen.schemaQueryFieldNames]
    unfold Codegen.federatedSchemaTypes
    rw [Codegen.defsFind_update_self qn
      (fun d => { d with fields := d.fields ++ [Codegen.serviceFieldDef] })
      (fun d => rfl)]
    rw [Codegen.defsFind_upsert_ne Codegen.serviceTypeDef qn hqs]
    rw [Codegen.defsFind_update_self qn
      (fun d => { d with fields := d.fields ++ [Codegen.entitiesFieldDef] })
      (fun d => rfl)]
    rw [Codegen.defsFind_upsert_ne
      (Codegen.entityUnionDef (sIn.types.filterMap (Codegen.entOf bind))) qn hqe]
    rw [hfind]
    simp [Codegen.entitiesFieldDef, Codegen.serviceFieldDef, List.map_append]

/-- C2 (witness for the amended theorem): the Query-only schema. -/
theorem introspection_fields_ir_only_witness :
    Codegen.irQueryFieldNames (Codegen.buildData true mockBind mockPrint sInQueryOnly) =
      some (queryDef.fields.map FieldDefinition.name ++
        ["__type", "__schema", "_entities", "_service"]) ∧
    Codegen.schemaQueryFieldNames
        (Codegen.buildData true mockBind mockPrint sInQueryOnly) =
      some (queryDef.fields.map FieldDefinition.name ++ ["_entities", "_service"]) :=
  introspection_fields_ir_only mockBind mockPrint sInQueryOnly "Query" queryDef
    rfl (by decide) rfl (by decide) (by decide) (by decide) (by decide) (by decide)

/-! ## Claim C3 -/

/-- C3 (counterexample): for a `Product` type whose `@key` names its
second field `upc : ID`, the IR Entity's `FieldType` is the Go type of
the FIRST field (`Int`), not the type of the key field. -/
theorem entity_fieldtype_counterexample :
    Codegen.entitiesOf (Codegen.buildData true mockBind mockPrint sInProductRev) =
      some [{ name := "Product", fieldName := "upc", fieldType := "go_Int",
              defn := productRev }] ∧
    Codegen.objFieldGoType (Codegen.buildData true mockBind mockPrint sInProductRev)
      "Product" "upc" = some "go_ID" ∧
    ("go_Int" : String) ≠ "go_ID" :=
  ⟨by decide, by decide, by decide⟩

/-- C3 (amended): the codegen `Entity.FieldType` is the resolved Go type
of the owning object's first field, whichever field the key names; only
the federation plugin's `GenerateCode` binding (`FieldTypeGo`) takes the
resolved type of the field actually named by the `@key` argument. -/
theorem entity_fieldtype_binding :
    (∀ (bind : String → String) (print : List Definition → String)
        (sIn : Codegen.SchemaIn) (qn : String) (qdef : Definition),
        sIn.queryName = some qn →
        Codegen.defsFind sIn.types qn = some qdef →
        qdef.kind = DefinitionKind.object →
        (∀ t ∈ sIn.types, Codegen.stepOK t = true) →
        (sIn.types.map Definition.name).Nodup →
        ∃ ents, Codegen.entitiesOf (Codegen.buildData true bind print sIn) = some ents ∧
          ∀ e ∈ ents, ∃ f0, e.defn.fields.head? = some f0 ∧
            e.fieldType = bind f0.type) ∧
    (∀ (objs : List Codegen.IRObject) (e : Fed.Entity) (obj : Codegen.IRObject)
        (g : String),
        Codegen.byName objs e.name = some obj →
        (obj.fields.filter (fun f => f.name == e.fieldName)).map
          Codegen.IRField.goType = [g] →
        Fed.bindFieldTypeGo objs e = Outcome.ok { e with fieldTypeGo := g }) := by
  constructor
  · intro bind print sIn qn qdef hq hfind hkind hok hnodup
    rw [Codegen.buildData_federated_eq bind print sIn qn qdef hq hfind hkind hok hnodup]
    refine ⟨_, rfl, ?_⟩
    intro e he
    exact (Codegen.entOf_defn_name bind sIn.types e he).2
  · exact bindFieldTypeGo_spec

/-- C3 (witness for the amended theorem): the reversed-field `Product`
schema for the codegen part and a concrete object list for the
`GenerateCode` part. -/
theorem entity_fieldtype_binding_witness :
    (∃ ents, Codegen.entitiesOf
        (Codegen.buildData true mockBind mockPrint sInProductRev) = some ents ∧
      ∀ e ∈ ents, ∃ f0, e.defn.fields.head? = some f0 ∧
        e.fieldType = mockBind f0.type) ∧
    Fed.bindFieldTypeGo [Codegen.buildObject mockBind productRev] boundProductEntity =
      Outcome.ok { boundProductEntity with fieldTypeGo := "go_ID" } :=
  ⟨entity_fieldtype_binding.1 mockBind mockPrint sInProductRev "Query" queryDef
      rfl (by decide) rfl (by decide) (by decide),
    entity_fieldtype_binding.2 [Codegen.buildObject mockBind productRev]
      boundProductEntity (Codegen.buildObject mockBind productRev) "go_ID"
      (by decide) (by decide)⟩

/-! ## Claim C5 -/

/-- C5: in a successful federated build, there is exactly one Entity per
`@key`-bearing object type, and the synthesized `_Entity` union's member
list and the registered possible-type set both equal exactly the list of
those owning type names. -/
theorem federated_entity_union (bind : String → String)
    (print : List Definition → String) (sIn : Codegen.SchemaIn) (qn : String)
    (qdef : Definition)
    (hq : sIn.queryName = some qn)
    (hfind : Codegen.defsFind sIn.types qn = some qdef)
    (hkind : qdef.kind = DefinitionKind.object)
    (hok : ∀ t ∈ sIn.types, Codegen.stepOK t = true)
    (hnodup : (sIn.types.map Definition.name).Nodup)
    (hqe : qn ≠ "_Entity") :
    (Codegen.entitiesOf (Codegen.buildData true bind print sIn)).map
        (List.map Codegen.CEntity.name) = some (Codegen.keyedTypeNames sIn.types) ∧
    (Codegen.entitiesOf (Codegen.buildData true bind print sIn)).map List.length =
      some (Codegen.keyedTypeNames sIn.types).length ∧
    (Codegen.schemaTypeOf (Codegen.buildData true bind print sIn) "_Entity").map
        Definition.types = some (Codegen.keyedTypeNames sIn.types) ∧
    (Codegen.possibleTypesOf (Codegen.buildData true bind print sIn) "_Entity").map
        (List.map Definition.name) = some (Codegen.keyedTypeNames sIn.types) := by
  rw [Codegen.buildData_federated_eq bind print sIn qn qdef hq hfind hkind hok hnodup]
  have hn := Codegen.entOf_names bind sIn.types hok
  refine ⟨?_, ?_, ?_, ?_⟩
  · simp only [Codegen.entitiesOf, Option.map_some']
    rw [hn]
  · simp only [Codegen.entitiesOf, Option.map_some']
    rw [← hn, List.length_map]
  · simp only [Codegen.schemaTypeOf]
    unfold Codegen.federatedSchemaTypes
    rw [Codegen.defsFind_update_ne qn
      (fun d => { d with fields := d.fields ++ [Codegen.serviceFieldDef] })
      (fun d => rfl) "_Entity" (Ne.symm hqe)]
    rw [Codegen.defsFind_upsert_ne Codegen.serviceTypeDef "_Entity" (by decide)]
    rw [Codegen.defsFind_update_ne qn
      (fun d => { d with fields := d.fields ++ [Codegen.entitiesFieldDef] })
      (fun d => rfl) "_Entity" (Ne.symm hqe)]
    rw [Codegen.defsFind_upsert_self
      (Codegen.entityUnionDef (sIn.types.filterMap (Codegen.entOf bind))) "_Entity" rfl]
    simp only [Option.map_some']
    rw [show (Codegen.entityUnionDef (sIn.types.filterMap (Codegen.entOf bind))).types =
      (sIn.types.filterMap (Codegen.entOf bind)).map Codegen.CEntity.name from rfl, hn]
  · simp only [Codegen.possibleTypesOf]
    rw [alookup_upsert, if_pos rfl]
    simp only [Option.map_some']
    rw [List.map_map]
    have hcomp : (sIn.types.filterMap (Codegen.entOf bind)).map
        (Definition.name ∘ Codegen.CEntity.defn) =
        (sIn.types.filterMap (Codegen.entOf bind)).map Codegen.CEntity.name :=
      List.map_congr_left
        (fun e he => (Codegen.entOf_defn_name bind sIn.types e he).1)
    rw [hcomp, hn]

/-- C5 (witness): the `Product` schema with one keyed type. -/
theorem federated_entity_union_witness :
    (Codegen.entitiesOf (Codegen.buildData true mockBind mockPrint sInProductRev)).map
        (List.map Codegen.CEntity.name) =
      some (Codegen.keyedTypeNames sInProductRev.types) ∧
    (Codegen.entitiesOf (Codegen.buildData true mockBind mockPrint sInProductRev)).map
        List.length = some (Codegen.keyedTypeNames sInProductRev.types).length ∧
    (Codegen.schemaTypeOf (Codegen.buildData true mockBind mockPrint sInProductRev)
        "_Entity").map Definition.types =
      some (Codegen.keyedTypeNames sInProductRev.types) ∧
    (Codegen.possibleTypesOf (Codegen.buildData true mockBind mockPrint sInProductRev)
        "_Entity").map (List.map Definition.name) =
      some (Codegen.keyedTypeNames sInProductRev.types) :=
  federated_entity_union mockBind mockPrint sInProductRev "Query" queryDef
    rfl (by decide) rfl (by decide) (by decide) (by decide)

/-! ## Claim C6 -/

/-- C6 (counterexample): the same schema type map handed to the build
under two iteration orders (both legal for a Go map, whose `range` order
is not fixed) yields structurally different IR: the Entity lists differ
in order. -/
theorem build_determinism_counterexample :
    sInAB1.types.Perm sInAB2.types ∧
    sInAB1.queryName = sInAB2.queryName ∧
    (Codegen.entitiesOf (Codegen.buildData true mockBind mockPrint sInAB1)).map
        (List.map Codegen.CEntity.name) = some ["AType", "BType"] ∧
    (Codegen.entitiesOf (Codegen.buildData true mockBind mockPrint sInAB2)).map
        (List.map Codegen.CEntity.name) = some ["BType", "AType"] ∧
    Codegen.entitiesOf (Codegen.buildData true mockBind mockPrint sInAB1) ≠
      Codegen.entitiesOf (Codegen.buildData true mockBind mockPrint sInAB2) := by
  refine ⟨by decide, rfl, by decide, by decide, by decide⟩

/-- C6 (amended): with federation disabled, two successful builds over
the same schema map (any two iteration orders) and the same config
produce identical sorted Objects and Inputs; the Entities list is only
determined up to permutation — its order follows the map iteration
order.  (With federation enabled even the Objects differ, since entity
objects embed the iteration-ordered `_Entity` union in `Implements`.) -/
theorem build_unfederated_deterministic (bind : String → String)
    (print : List Definition → String) (s1 s2 : Codegen.SchemaIn)
    (d1 d2 : Codegen.IRData)
    (hperm : s1.types.Perm s2.types)
    (hq : s1.queryName = s2.queryName)
    (hnodup : (s1.types.map Definition.name).Nodup)
    (h1 : Codegen.buildData false bind print s1 = Outcome.ok d1)
    (h2 : Codegen.buildData false bind print s2 = Outcome.ok d2) :
    d1.objects = d2.objects ∧ d1.inputs = d2.inputs ∧
      d1.entities.Perm d2.entities := by
  rcases Codegen.buildData_unfederated_ok bind print s1 d1 h1 with
    ⟨qn1, hq1, _, hobj1, hin1, hent1⟩
  rcases Codegen.buildData_unfederated_ok bind print s2 d2 h2 with
    ⟨qn2, hq2, _, hobj2, hin2, hent2⟩
  have hqn : qn1 = qn2 := by
    rw [hq1, hq2] at hq
    injection hq
  subst hqn
  have hnobj1 : ((s1.types.filterMap (Codegen.objOf bind)).map
      Codegen.IRObject.definitionName).Nodup :=
    hnodup.sublist (Codegen.names_filterMap_objOf_sublist bind s1.types)
  have hnobj2 : ((s2.types.filterMap (Codegen.objOf bind)).map
      Codegen.IRObject.definitionName).Nodup :=
    (((hperm.map Definition.name).nodup_iff).mp hnodup).sublist
      (Codegen.names_filterMap_objOf_sublist bind s2.types)
  have hnin1 : ((s1.types.filterMap (Codegen.inputOf bind)).map
      Codegen.IRObject.definitionName).Nodup :=
    hnodup.sublist (Codegen.names_filterMap_inputOf_sublist bind s1.types)
  have hnamecomp : Codegen.IRObject.definitionName ∘
      (fun o => if o.definitionName == qn1 then
        Codegen.appendObjFields (Codegen.introspectionFields bind) o else o) =
      Codegen.IRObject.definitionName := by
    funext o
    by_cases hc : o.definitionName = qn1 <;>
      simp [hc, Codegen.appendObjFields]
  refine ⟨?_, ?_, ?_⟩
  · rw [hobj1, hobj2,
      Codegen.updateFirst_eq_map qn1 _ _ hnobj1,
      Codegen.updateFirst_eq_map qn1 _ _ hnobj2]
    apply Codegen.sortObjects_eq_of_perm
    · exact (hperm.filterMap _).map _
    · rw [List.map_map, hnamecomp]
      exact hnobj1
  · rw [hin1, hin2]
    exact Codegen.sortObjects_eq_of_perm _ _ (hperm.filterMap _) hnin1
  · rw [hent1, hent2]
    exact hperm.filterMap _

/-- C6 (witness for the amended theorem): the two iteration orders of the
`Query`/`AType`/`BType` schema, non-federated. -/
theorem build_unfederated_deterministic_witness :
    ∃ d1 d2 : Codegen.IRData,
      Codegen.buildData false mockBind mockPrint sInAB1 = Outcome.ok d1 ∧
      Codegen.buildData false mockBind mockPrint sInAB2 = Outcome.ok d2 ∧
      (d1.objects = d2.objects ∧ d1.inputs = d2.inputs ∧
        d1.entities.Perm d2.entities) := by
  have hok1 : Codegen.isOk (Codegen.buildData false mockBind mockPrint sInAB1) = true := by
    decide
  have hok2 : Codegen.isOk (Codegen.buildData false mockBind mockPrint sInAB2) = true := by
    decide
  cases hd1 : Codegen.buildData false mockBind mockPrint sInAB1 with
  | ok d1 =>
    cases hd2 : Codegen.buildData false mockBind mockPrint sInAB2 with
    | ok d2 =>
      exact ⟨d1, d2, rfl, rfl,
        build_unfederated_deterministic mockBind mockPrint sInAB1 sInAB2 d1 d2
          (by decide) rfl (by decide) hd1 hd2⟩
    | err e => rw [hd2] at hok2; simp [Codegen.isOk] at hok2
    | panicked m => rw [hd2] at hok2; simp [Codegen.isOk] at hok2
    | exited nn => rw [hd2] at hok2; simp [Codegen.isOk] at hok2
  | err e => rw [hd1] at hok1; simp [Codegen.isOk] at hok1
  | panicked m => rw [hd1] at hok1; simp [Codegen.isOk] at hok1
  | exited nn => rw [hd1] at hok1; simp [Codegen.isOk] at hok1

end Gqlgen
